import Mathlib

/-!
Shallow embedding of the `item_synchronizer` package (bi-directional item
synchronizer).  The Python sources embedded here are:

* `item_synchronizer/types.py`      — type aliases (`ID = str`, `Item = Any`, ...)
* `item_synchronizer/helpers.py`    — `SideChanges`, `item_getter_handle_exc`,
  `delete_n_pop`, `TypeStats`
* `item_synchronizer/resolution_strategy.py` — `ResolutionResult`,
  `_RecencyRS`, `MostRecentRS`, `LeastRecentRS`, `AlwaysFirstRS`, `AlwaysSecondRS`
* `item_synchronizer/synchronizer.py` — the `Synchronizer` class and its
  `sync` / `_sync` / `_sync_new_items` / `_convert_n_insert` /
  `_convert_n_update_to_A` / `_convert_n_update_to_B` / `_catch_exc` methods.

Modelling conventions:

* Identifiers (`ID = str`) and items (opaque values the engine never
  inspects) are modelled as `String`; dates (`datetime`) as `Int`.
* The caller-supplied side adapters (getters / converters / inserters /
  updaters / deleters) are modelled as pure functions collected in an `Env`
  structure.  A callback that can raise is modelled with `Except Unit`;
  raising corresponds to the `.error ()` outcome.  An item getter can
  additionally distinguish a `KeyError` from any other exception
  (`RawGet.keyErr` vs `RawGet.otherExc`), because
  `item_getter_handle_exc` treats only `KeyError` specially.
* The `bidict` instance `A_to_B` (with its live inverse view `B_to_A`) is
  modelled as an association list of `(A-id, B-id)` pairs, `Bimap`; the
  bijection invariant is the predicate `bimapWF`.
* Exceptions that escape `_sync` (and hence `sync`) are modelled with
  `Except SyncError`; exceptions swallowed by `_catch_exc` never surface
  in the result.
* Every engine function additionally returns the list of side-effecting
  callback invocations it performed (`List Ev`), in invocation order, so
  that claims about "which callbacks ran" can be stated.
-/

deriving instance DecidableEq for Except

namespace ItemSync

/-- `types.py`: `ID = str` — identifier of an item on either side. -/
abbrev ID := String

/-- `types.py`: `Item = Any` — opaque item value; the engine never inspects
it, so an opaque comparable value suffices. -/
abbrev Item := String

/-- `datetime` values as used by the recency strategies, abstracted to an
integer timeline (only comparisons are used by the code). -/
abbrev Date := Int

/-- Outcome of one raw (unwrapped) item-getter call: a returned item, a
raised `KeyError`, or any other raised exception. -/
inductive RawGet
  | ok (it : Item)
  | keyErr
  | otherExc
deriving DecidableEq

/-- The caller-supplied side adapters handed to `Synchronizer.__init__`
(inserters, updaters, deleters, converters and item getters for both
sides).  `.error ()` models the callback raising an exception. -/
structure Env where
  item_getter_A : ID → RawGet
  item_getter_B : ID → RawGet
  converter_to_A : Item → Except Unit (Option Item)
  converter_to_B : Item → Except Unit (Option Item)
  inserter_to_A : Item → Except Unit ID
  inserter_to_B : Item → Except Unit ID
  updater_to_A : ID → Item → Except Unit Unit
  updater_to_B : ID → Item → Except Unit Unit
  deleter_to_A : ID → Except Unit Unit
  deleter_to_B : ID → Except Unit Unit

/-- `helpers.py` `SideChanges`: the new / modified / deleted identifier sets
of one side.  Python uses `set`; we use lists (the engine iterates them),
with `Nodup` hypotheses where a claim needs set-like behaviour. -/
structure SideChanges where
  new : List ID
  modified : List ID
  deleted : List ID
deriving DecidableEq

/-- `helpers.py` `TypeStats`: per-side counters, all initialized to 0 in
`TypeStats.__init__`. -/
structure TypeStats where
  created_new : Nat
  updated : Nat
  deleted : Nat
  errors : Nat
deriving DecidableEq

/-- `TypeStats.__init__`: all counters start at zero. -/
def TypeStats.init : TypeStats := ⟨0, 0, 0, 0⟩

/-- `TypeStats.create_new`: report an insertion event. -/
def TypeStats.create_new (s : TypeStats) : TypeStats :=
  { s with created_new := s.created_new + 1 }

/-- `TypeStats.update`: report an update event. -/
def TypeStats.update (s : TypeStats) : TypeStats :=
  { s with updated := s.updated + 1 }

/-- `TypeStats.delete`: report a delete event. -/
def TypeStats.delete (s : TypeStats) : TypeStats :=
  { s with deleted := s.deleted + 1 }

/-- `TypeStats.error`: report an error during an event operation.  (Defined
in `helpers.py`; the synchronizer never invokes it.) -/
def TypeStats.error (s : TypeStats) : TypeStats :=
  { s with errors := s.errors + 1 }

/-- The `bidict` `A_to_B` together with its inverse view `B_to_A`, as one
association list of `(A-id, B-id)` pairs. -/
abbrev Bimap := List (ID × ID)

/-- `A_to_B[a]`, returning `none` where Python would raise `KeyError`. -/
def lookupA (m : Bimap) (a : ID) : Option ID :=
  (m.find? (fun p => p.1 == a)).map (fun p => p.2)

/-- `B_to_A[b]`, returning `none` where Python would raise `KeyError`. -/
def lookupB (m : Bimap) (b : ID) : Option ID :=
  (m.find? (fun p => p.2 == b)).map (fun p => p.1)

/-- Remove every pair whose A-side key is `a` (the effect of popping `a`
from `A_to_B`, which also drops it from the inverse view). -/
def eraseA (m : Bimap) (a : ID) : Bimap :=
  m.filter (fun p => p.1 != a)

/-- Remove every pair whose B-side key is `b` (the effect of popping `b`
from `B_to_A`, which also drops it from the inverse view). -/
def eraseB (m : Bimap) (b : ID) : Bimap :=
  m.filter (fun p => p.2 != b)

/-- The A-side keys of the map. -/
def keysA (m : Bimap) : List ID := m.map (fun p => p.1)

/-- The B-side keys (values of `A_to_B`). -/
def keysB (m : Bimap) : List ID := m.map (fun p => p.2)

/-- The bidict invariant: the relation is a bijection — no duplicate
A-side key and no duplicate B-side key. -/
def bimapWF (m : Bimap) : Prop := (keysA m).Nodup ∧ (keysB m).Nodup

instance (m : Bimap) : Decidable (bimapWF m) := by
  unfold bimapWF; infer_instance

/-- `A_to_B[a] = b` (bidict `__setitem__`): raises on value duplication
(`b` already bound to a *different* A key), overwrites on key
duplication. -/
def setAB (m : Bimap) (a b : ID) : Except Unit Bimap :=
  if m.any (fun p => p.2 == b && p.1 != a) then .error ()
  else .ok ((a, b) :: eraseA m a)

/-- `B_to_A[b] = a` on the inverse view: raises if `a` is already bound to
a *different* B key, overwrites an existing binding of `b`. -/
def setBA (m : Bimap) (b a : ID) : Except Unit Bimap :=
  if m.any (fun p => p.1 == a && p.2 != b) then .error ()
  else .ok ((a, b) :: eraseB m b)

/-- `A_to_B.pop(a)` — raises `KeyError` when `a` is absent. -/
def popA (m : Bimap) (a : ID) : Except Unit Bimap :=
  if (lookupA m a).isSome then .ok (eraseA m a) else .error ()

/-- `B_to_A.pop(b)` — raises `KeyError` when `b` is absent. -/
def popB (m : Bimap) (b : ID) : Except Unit Bimap :=
  if (lookupB m b).isSome then .ok (eraseB m b) else .error ()

/-- The state a `Synchronizer` instance carries across a run: the
`A_to_B` bidict and the two `TypeStats` objects created in `__init__`. -/
structure SyncState where
  a2b : Bimap
  statsA : TypeStats
  statsB : TypeStats
deriving DecidableEq

/-- One recorded callback invocation (side effect) of the engine, tagged by
side: getters, converters, inserters (with the item passed), updaters and
deleters (with the target identifier), and resolution-strategy calls
(with the conflicting A/B identifier pair). -/
inductive Ev
  | getA (i : ID)
  | getB (i : ID)
  | convA (it : Item)
  | convB (it : Item)
  | insA (it : Item)
  | insB (it : Item)
  | updA (i : ID)
  | updB (i : ID)
  | delA (i : ID)
  | delB (i : ID)
  | res (a : ID) (b : ID)
deriving DecidableEq

/-- The exceptions that can escape `Synchronizer._sync` (nothing catches
them before the caller): a non-`KeyError` getter exception, the `Mix`
`RuntimeError`, the `assert item is not None` failure, the
"Programmatic Error" `RuntimeError`, a `KeyError` from a bidict lookup or
`pop`, and a bidict duplication error on assignment. -/
inductive SyncError
  | getterExc
  | mixUnsupported
  | assertionFailed
  | programmaticError
  | mapLookupMiss
  | mapDupErr
deriving DecidableEq

/-- The `insert_to_side` literal of `_convert_n_insert`. -/
inductive Side
  | A
  | B
deriving DecidableEq

/-- `helpers.item_getter_handle_exc`: wraps an item getter so that a raised
`KeyError` becomes `None`; any other exception propagates. -/
def item_getter_handle_exc (g : ID → RawGet) (i : ID) :
    Except SyncError (Option Item) :=
  match g i with
  | .ok it => .ok (some it)
  | .keyErr => .ok none
  | .otherExc => .error .getterExc

/-- `helpers.delete_n_pop` applied to `deleter_to_A` and `A_to_B`, already
composed with `_catch_exc` (as in `Synchronizer.__init__`): run the raw
deleter; on success pop the pair from the map; any exception raised along
the way is swallowed, leaving the map as it was. -/
def delete_n_pop_A (env : Env) (id_ : ID) (m : Bimap) : Bimap :=
  match env.deleter_to_A id_ with
  | .error _ => m
  | .ok _ => eraseA m id_

/-- `helpers.delete_n_pop` applied to `deleter_to_B` and `B_to_A`, composed
with `_catch_exc` (as in `Synchronizer.__init__`). -/
def delete_n_pop_B (env : Env) (id_ : ID) (m : Bimap) : Bimap :=
  match env.deleter_to_B id_ with
  | .error _ => m
  | .ok _ => eraseB m id_

/-- `resolution_strategy.py` `ResolutionResult.ID` enum (`A | B | Mix`). -/
inductive RID
  | A
  | B
  | Mix
deriving DecidableEq

/-- `resolution_strategy.py` `ResolutionResult`: the chosen side and the
chosen item (`none` = resolved to "deleted"). -/
structure ResolutionResult where
  result_id : RID
  item : Option Item
deriving DecidableEq

/-- A resolution strategy, reduced to its `resolve` method (the only part
the engine calls). -/
abbrev RS := Option Item → Option Item → ResolutionResult

/-- `_RecencyRS.resolve`: handle the `None` combinations first, then
compare the two extracted dates with the comparison predicate. -/
def RecencyRS.resolve (dgA dgB : Item → Date) (cmp : Date → Date → Bool)
    (item_A item_B : Option Item) : ResolutionResult :=
  match item_A, item_B with
  | none, none => ⟨.A, none⟩
  | none, some iB => ⟨.B, some iB⟩
  | some iA, none => ⟨.A, some iA⟩
  | some iA, some iB =>
    if cmp (dgA iA) (dgB iB) then ⟨.A, some iA⟩ else ⟨.B, some iB⟩

/-- `MostRecentRS`: recency resolution with `date1 >= date2`. -/
def MostRecentRS.resolve (dgA dgB : Item → Date) : RS :=
  RecencyRS.resolve dgA dgB (fun date1 date2 => decide (date1 ≥ date2))

/-- `LeastRecentRS`: recency resolution with `date1 <= date2`. -/
def LeastRecentRS.resolve (dgA dgB : Item → Date) : RS :=
  RecencyRS.resolve dgA dgB (fun date1 date2 => decide (date1 ≤ date2))

/-- `AlwaysFirstRS.resolve`: always side A's item. -/
def AlwaysFirstRS.resolve : RS := fun item_A _ => ⟨.A, item_A⟩

/-- `AlwaysSecondRS.resolve`: always side B's item. -/
def AlwaysSecondRS.resolve : RS := fun _ item_B => ⟨.B, item_B⟩

/-- `Synchronizer._convert_n_insert`: fetch the item from the side it
originated on, convert it to the other side, insert it there.  Getter
`KeyError` and a declining/raising converter yield `none` (skip); the
inserter is wrapped in `_catch_exc`, so when it raises the created
counter is still bumped (lines 108–111 run unconditionally) but the
returned id is `None`. -/
def convert_n_insert (env : Env) (id_ : ID) (insert_to_side : Side)
    (st : SyncState) : List Ev × Except SyncError (Option ID × SyncState) :=
  match insert_to_side with
  | .A =>
    match env.item_getter_B id_ with
    | .otherExc => ([.getB id_], .error .getterExc)
    | .keyErr => ([.getB id_], .ok (none, st))
    | .ok item =>
      match env.converter_to_A item with
      | .error _ => ([.getB id_, .convA item], .ok (none, st))
      | .ok none => ([.getB id_, .convA item], .ok (none, st))
      | .ok (some converted_item) =>
        match env.inserter_to_A converted_item with
        | .error _ =>
          ([.getB id_, .convA item, .insA converted_item],
            .ok (none, { st with statsA := st.statsA.create_new }))
        | .ok new_id =>
          ([.getB id_, .convA item, .insA converted_item],
            .ok (some new_id, { st with statsA := st.statsA.create_new }))
  | .B =>
    match env.item_getter_A id_ with
    | .otherExc => ([.getA id_], .error .getterExc)
    | .keyErr => ([.getA id_], .ok (none, st))
    | .ok item =>
      match env.converter_to_B item with
      | .error _ => ([.getA id_, .convB item], .ok (none, st))
      | .ok none => ([.getA id_, .convB item], .ok (none, st))
      | .ok (some converted_item) =>
        match env.inserter_to_B converted_item with
        | .error _ =>
          ([.getA id_, .convB item, .insB converted_item],
            .ok (none, { st with statsB := st.statsB.create_new }))
        | .ok new_id =>
          ([.getA id_, .convB item, .insB converted_item],
            .ok (some new_id, { st with statsB := st.statsB.create_new }))

/-- The inner loop of `Synchronizer._sync_new_items` for one side's `new`
list: `_convert_n_insert` each id and, when an id comes back, store
`map_[id_] = inserted_id` (on A-side insertion `map_` is `B_to_A`). -/
def sync_new_loop (env : Env) (insert_to_side : Side) (ids : List ID)
    (st : SyncState) : List Ev × Except SyncError SyncState :=
  match ids with
  | [] => ([], .ok st)
  | id_ :: rest =>
    let r := convert_n_insert env id_ insert_to_side st
    match r.2 with
    | .error e => (r.1, .error e)
    | .ok (none, st1) =>
      let r2 := sync_new_loop env insert_to_side rest st1
      (r.1 ++ r2.1, r2.2)
    | .ok (some inserted_id, st1) =>
      let mset := match insert_to_side with
        | .B => setAB st1.a2b id_ inserted_id
        | .A => setBA st1.a2b id_ inserted_id
      match mset with
      | .error _ => (r.1, .error .mapDupErr)
      | .ok m2 =>
        let r2 := sync_new_loop env insert_to_side rest { st1 with a2b := m2 }
        (r.1 ++ r2.1, r2.2)

/-- `Synchronizer._sync_new_items`: first side A's `new` items are inserted
into B (via `A_to_B`), then side B's `new` items into A (via `B_to_A`). -/
def sync_new_items (env : Env) (changes_A changes_B : SideChanges)
    (st : SyncState) : List Ev × Except SyncError SyncState :=
  let r1 := sync_new_loop env .B changes_A.new st
  match r1.2 with
  | .error e => (r1.1, .error e)
  | .ok st1 =>
    let r2 := sync_new_loop env .A changes_B.new st1
    (r1.1 ++ r2.1, r2.2)

/-- `Synchronizer._convert_n_update_to_A`: `assert item is not None`, then
convert (a declining or raising converter means return with no update),
then call the wrapped updater and bump the updated counter — the counter
is bumped even when the updater callback raised, because `_catch_exc`
swallowed the exception. -/
def convert_n_update_to_A (env : Env) (id_A : ID) (item : Option Item)
    (st : SyncState) : List Ev × Except SyncError SyncState :=
  match item with
  | none => ([], .error .assertionFailed)
  | some it =>
    match env.converter_to_A it with
    | .error _ => ([.convA it], .ok st)
    | .ok none => ([.convA it], .ok st)
    | .ok (some converted_item) =>
      match env.updater_to_A id_A converted_item with
      | _ => ([.convA it, .updA id_A], .ok { st with statsA := st.statsA.update })

/-- `Synchronizer._convert_n_update_to_B`, mirror of
`_convert_n_update_to_A`. -/
def convert_n_update_to_B (env : Env) (id_B : ID) (item : Option Item)
    (st : SyncState) : List Ev × Except SyncError SyncState :=
  match item with
  | none => ([], .error .assertionFailed)
  | some it =>
    match env.converter_to_B it with
    | .error _ => ([.convB it], .ok st)
    | .ok none => ([.convB it], .ok st)
    | .ok (some converted_item) =>
      match env.updater_to_B id_B converted_item with
      | _ => ([.convB it, .updB id_B], .ok { st with statsB := st.statsB.update })

/-- `changes_B.modified.union(changes_B.deleted)` (`touched_from_B`). -/
def touched_from_B (changes_B : SideChanges) : List ID :=
  changes_B.modified ++ changes_B.deleted

/-- `changes_A.modified.union(changes_A.deleted)` (`touched_from_A`). -/
def touched_from_A (changes_A : SideChanges) : List ID :=
  changes_A.modified ++ changes_A.deleted

/-- Keys of `{self._B_to_A[change]: change for change in touched_from_B}`;
a missing correspondent raises `KeyError` out of `_sync`. -/
def mapKeysBtoA (m : Bimap) : List ID → Except SyncError (List ID)
  | [] => .ok []
  | b :: rest =>
    match lookupB m b with
    | none => .error .mapLookupMiss
    | some a =>
      match mapKeysBtoA m rest with
      | .error e => .error e
      | .ok l => .ok (a :: l)

/-- Keys of `{self._A_to_B[change]: change for change in touched_from_A}`;
a missing correspondent raises `KeyError` out of `_sync`. -/
def mapKeysAtoB (m : Bimap) : List ID → Except SyncError (List ID)
  | [] => .ok []
  | a :: rest =>
    match lookupA m a with
    | none => .error .mapLookupMiss
    | some b =>
      match mapKeysAtoB m rest with
      | .error e => .error e
      | .ok l => .ok (b :: l)

/-- The body of the `for conflict_in_B in conflicts_in_B` loop of
`Synchronizer._sync` (lines 211–239): look up the A correspondent, fetch
both items, call the resolution strategy, and apply the winner. -/
def conflict_step (env : Env) (rs : RS) (changes_A changes_B : SideChanges)
    (conflict_in_B : ID) (st : SyncState) :
    List Ev × Except SyncError SyncState :=
  match lookupB st.a2b conflict_in_B with
  | none => ([], .error .mapLookupMiss)
  | some conflict_in_A =>
    match item_getter_handle_exc env.item_getter_B conflict_in_B with
    | .error e => ([.getB conflict_in_B], .error e)
    | .ok item_B =>
      match item_getter_handle_exc env.item_getter_A conflict_in_A with
      | .error e => ([.getB conflict_in_B, .getA conflict_in_A], .error e)
      | .ok item_A =>
        let evs0 : List Ev :=
          [.getB conflict_in_B, .getA conflict_in_A,
            .res conflict_in_A conflict_in_B]
        let result := rs item_A item_B
        match result.result_id with
        | .Mix => (evs0, .error .mixUnsupported)
        | .A =>
          match item_A with
          | none =>
            if conflict_in_B ∈ changes_B.deleted then
              match popB st.a2b conflict_in_B with
              | .error _ => (evs0, .error .mapLookupMiss)
              | .ok m2 => (evs0, .ok { st with a2b := m2 })
            else
              (evs0 ++ [.delB conflict_in_B],
                .ok { st with a2b := delete_n_pop_B env conflict_in_B st.a2b, statsB := st.statsB.delete })
          | some iA =>
            let r := convert_n_update_to_B env conflict_in_B (some iA) st
            (evs0 ++ r.1, r.2)
        | .B =>
          match item_B with
          | none =>
            if conflict_in_A ∈ changes_A.deleted then
              match popA st.a2b conflict_in_A with
              | .error _ => (evs0, .error .mapLookupMiss)
              | .ok m2 => (evs0, .ok { st with a2b := m2 })
            else
              (evs0 ++ [.delA conflict_in_A],
                .ok { st with a2b := delete_n_pop_A env conflict_in_A st.a2b, statsA := st.statsA.delete })
          | some iB =>
            let r := convert_n_update_to_A env conflict_in_A (some iB) st
            (evs0 ++ r.1, r.2)

/-- Iterate `conflict_step` over the conflict list. -/
def conflict_loop (env : Env) (rs : RS) (changes_A changes_B : SideChanges)
    (l : List ID) (st : SyncState) : List Ev × Except SyncError SyncState :=
  match l with
  | [] => ([], .ok st)
  | b :: rest =>
    let r := conflict_step env rs changes_A changes_B b st
    match r.2 with
    | .error e => (r.1, .error e)
    | .ok st1 =>
      let r2 := conflict_loop env rs changes_A changes_B rest st1
      (r.1 ++ r2.1, r2.2)

/-- The body of the `for id_B in not_conflicts_from_B` loop of
`Synchronizer._sync` (lines 245–254): modified → fetch and update the A
correspondent (the `assert` fires when the item is gone); deleted →
delete the A correspondent; neither → "Programmatic Error". -/
def non_conflict_B_step (env : Env) (changes_B : SideChanges) (id_B : ID)
    (st : SyncState) : List Ev × Except SyncError SyncState :=
  match lookupB st.a2b id_B with
  | none => ([], .error .mapLookupMiss)
  | some id_A =>
    if id_B ∈ changes_B.modified then
      match item_getter_handle_exc env.item_getter_B id_B with
      | .error e => ([.getB id_B], .error e)
      | .ok item_B =>
        let r := convert_n_update_to_A env id_A item_B st
        (.getB id_B :: r.1, r.2)
    else if id_B ∈ changes_B.deleted then
      ([.delA id_A],
        .ok { st with a2b := delete_n_pop_A env id_A st.a2b, statsA := st.statsA.delete })
    else
      ([], .error .programmaticError)

/-- Iterate `non_conflict_B_step`. -/
def non_conflict_B_loop (env : Env) (changes_B : SideChanges) (l : List ID)
    (st : SyncState) : List Ev × Except SyncError SyncState :=
  match l with
  | [] => ([], .ok st)
  | b :: rest =>
    let r := non_conflict_B_step env changes_B b st
    match r.2 with
    | .error e => (r.1, .error e)
    | .ok st1 =>
      let r2 := non_conflict_B_loop env changes_B rest st1
      (r.1 ++ r2.1, r2.2)

/-- The body of the `for id_A in not_conflicts_from_A` loop of
`Synchronizer._sync` (lines 255–264). -/
def non_conflict_A_step (env : Env) (changes_A : SideChanges) (id_A : ID)
    (st : SyncState) : List Ev × Except SyncError SyncState :=
  match lookupA st.a2b id_A with
  | none => ([], .error .mapLookupMiss)
  | some id_B =>
    if id_A ∈ changes_A.modified then
      match item_getter_handle_exc env.item_getter_A id_A with
      | .error e => ([.getA id_A], .error e)
      | .ok item_A =>
        let r := convert_n_update_to_B env id_B item_A st
        (.getA id_A :: r.1, r.2)
    else if id_A ∈ changes_A.deleted then
      ([.delB id_B],
        .ok { st with a2b := delete_n_pop_B env id_B st.a2b, statsB := st.statsB.delete })
    else
      ([], .error .programmaticError)

/-- Iterate `non_conflict_A_step`. -/
def non_conflict_A_loop (env : Env) (changes_A : SideChanges) (l : List ID)
    (st : SyncState) : List Ev × Except SyncError SyncState :=
  match l with
  | [] => ([], .ok st)
  | a :: rest =>
    let r := non_conflict_A_step env changes_A a st
    match r.2 with
    | .error e => (r.1, .error e)
    | .ok st1 =>
      let r2 := non_conflict_A_loop env changes_A rest st1
      (r.1 ++ r2.1, r2.2)

/-- Phases 2–4 of `Synchronizer._sync` (everything after
`_sync_new_items`): conflict classification (lines 170–203), the conflict
loop (211–239) and the two non-conflict loops (241–264). -/
def syncCore (env : Env) (rs : RS) (changes_A changes_B : SideChanges)
    (st : SyncState) : List Ev × Except SyncError SyncState :=
  match mapKeysBtoA st.a2b (touched_from_B changes_B) with
  | .error e => ([], .error e)
  | .ok tBinA =>
    match mapKeysAtoB st.a2b (touched_from_A changes_A) with
    | .error e => ([], .error e)
    | .ok tAinB =>
      let conflicts_in_B :=
        (touched_from_B changes_B).filter (fun b => decide (b ∈ tAinB))
      let r2 := conflict_loop env rs changes_A changes_B conflicts_in_B st
      match r2.2 with
      | .error e => (r2.1, .error e)
      | .ok st2 =>
        let not_conflicts_from_B :=
          (touched_from_B changes_B).filter (fun b => decide (b ∉ tAinB))
        let not_conflicts_from_A :=
          (touched_from_A changes_A).filter (fun a => decide (a ∉ tBinA))
        let r3 := non_conflict_B_loop env changes_B not_conflicts_from_B st2
        match r3.2 with
        | .error e => (r2.1 ++ r3.1, .error e)
        | .ok st3 =>
          let r4 := non_conflict_A_loop env changes_A not_conflicts_from_A st3
          (r2.1 ++ r3.1 ++ r4.1, r4.2)

/-- `Synchronizer.sync` / `_sync`: phase 1 (`_sync_new_items`) followed by
`syncCore`.  (The `try/finally` of `sync` only logs the statistics and
re-raises, so `sync` and `_sync` have the same observable behaviour.) -/
def sync (env : Env) (rs : RS) (changes_A changes_B : SideChanges)
    (st : SyncState) : List Ev × Except SyncError SyncState :=
  let r1 := sync_new_items env changes_A changes_B st
  match r1.2 with
  | .error e => (r1.1, .error e)
  | .ok st1 =>
    let r2 := syncCore env rs changes_A changes_B st1
    (r1.1 ++ r2.1, r2.2)

/-! ### Association-list (`bidict`) lemmas -/

theorem lookupA_cons (k v : ID) (m : Bimap) (a : ID) :
    lookupA ((k, v) :: m) a = if k = a then some v else lookupA m a := by
  by_cases h : k = a
  · have hb : (k == a) = true := by simp [h]
    simp [lookupA, List.find?, hb, h]
  · have hb : (k == a) = false := by simp [h]
    simp [lookupA, List.find?, hb, h]

theorem lookupB_cons (k v : ID) (m : Bimap) (b : ID) :
    lookupB ((k, v) :: m) b = if v = b then some k else lookupB m b := by
  by_cases h : v = b
  · have hb : (v == b) = true := by simp [h]
    simp [lookupB, List.find?, hb, h]
  · have hb : (v == b) = false := by simp [h]
    simp [lookupB, List.find?, hb, h]

theorem lookupA_mem {m : Bimap} {a b : ID} (h : lookupA m a = some b) :
    (a, b) ∈ m := by
  induction m with
  | nil => simp [lookupA] at h
  | cons p rest ih =>
    obtain ⟨k, v⟩ := p
    rw [lookupA_cons] at h
    by_cases hk : k = a
    · simp [hk] at h
      simp [hk, h]
    · simp [hk] at h
      exact List.mem_cons_of_mem _ (ih h)

theorem lookupB_mem {m : Bimap} {a b : ID} (h : lookupB m b = some a) :
    (a, b) ∈ m := by
  induction m with
  | nil => simp [lookupB] at h
  | cons p rest ih =>
    obtain ⟨k, v⟩ := p
    rw [lookupB_cons] at h
    by_cases hv : v = b
    · simp [hv] at h
      simp [hv, h]
    · simp [hv] at h
      exact List.mem_cons_of_mem _ (ih h)

theorem mem_keysA {m : Bimap} {a b : ID} (h : (a, b) ∈ m) : a ∈ keysA m := by
  simp only [keysA, List.mem_map]
  exact ⟨(a, b), h, rfl⟩

theorem mem_keysB {m : Bimap} {a b : ID} (h : (a, b) ∈ m) : b ∈ keysB m := by
  simp only [keysB, List.mem_map]
  exact ⟨(a, b), h, rfl⟩

theorem mem_lookupA {m : Bimap} (hnd : (keysA m).Nodup) {a b : ID}
    (h : (a, b) ∈ m) : lookupA m a = some b := by
  induction m with
  | nil => simp at h
  | cons p rest ih =>
    obtain ⟨k, v⟩ := p
    rw [List.mem_cons] at h
    rw [keysA] at hnd
    simp only [List.map_cons, List.nodup_cons] at hnd
    rw [lookupA_cons]
    rcases h with h | h
    · rw [Prod.mk.injEq] at h
      simp [h.1, h.2]
    · by_cases hk : k = a
      · exact absurd (hk ▸ mem_keysA h) hnd.1
      · simp only [hk, if_false]
        exact ih hnd.2 h

theorem mem_lookupB {m : Bimap} (hnd : (keysB m).Nodup) {a b : ID}
    (h : (a, b) ∈ m) : lookupB m b = some a := by
  induction m with
  | nil => simp at h
  | cons p rest ih =>
    obtain ⟨k, v⟩ := p
    rw [List.mem_cons] at h
    rw [keysB] at hnd
    simp only [List.map_cons, List.nodup_cons] at hnd
    rw [lookupB_cons]
    rcases h with h | h
    · rw [Prod.mk.injEq] at h
      simp [h.1, h.2]
    · by_cases hv : v = b
      · exact absurd (hv ▸ mem_keysB h) hnd.1
      · simp only [hv, if_false]
        exact ih hnd.2 h

theorem lookupA_eq_none {m : Bimap} {a : ID} :
    lookupA m a = none ↔ ∀ p ∈ m, p.1 ≠ a := by
  induction m with
  | nil => simp [lookupA]
  | cons p rest ih =>
    obtain ⟨k, v⟩ := p
    rw [lookupA_cons]
    by_cases hk : k = a <;> simp [hk, ih]

theorem lookupB_eq_none {m : Bimap} {b : ID} :
    lookupB m b = none ↔ ∀ p ∈ m, p.2 ≠ b := by
  induction m with
  | nil => simp [lookupB]
  | cons p rest ih =>
    obtain ⟨k, v⟩ := p
    rw [lookupB_cons]
    by_cases hv : v = b <;> simp [hv, ih]

theorem mem_eraseA {p : ID × ID} {m : Bimap} {a : ID} :
    p ∈ eraseA m a ↔ p ∈ m ∧ p.1 ≠ a := by
  simp [eraseA, List.mem_filter]

theorem mem_eraseB {p : ID × ID} {m : Bimap} {b : ID} :
    p ∈ eraseB m b ↔ p ∈ m ∧ p.2 ≠ b := by
  simp [eraseB, List.mem_filter]

theorem eraseA_sublist (m : Bimap) (a : ID) : (eraseA m a).Sublist m :=
  List.filter_sublist m

theorem eraseB_sublist (m : Bimap) (b : ID) : (eraseB m b).Sublist m :=
  List.filter_sublist m

theorem bimapWF_of_sublist {m m' : Bimap} (h : m'.Sublist m)
    (hwf : bimapWF m) : bimapWF m' :=
  ⟨hwf.1.sublist (h.map _), hwf.2.sublist (h.map _)⟩

theorem fst_inj {m : Bimap} (hnd : (keysA m).Nodup) {a b b' : ID}
    (h1 : (a, b) ∈ m) (h2 : (a, b') ∈ m) : b = b' := by
  have hnd' : (m.map (fun p : ID × ID => p.1)).Nodup := hnd
  have := List.inj_on_of_nodup_map hnd' h1 h2 rfl
  exact congrArg Prod.snd this

theorem snd_inj {m : Bimap} (hnd : (keysB m).Nodup) {a a' b : ID}
    (h1 : (a, b) ∈ m) (h2 : (a', b) ∈ m) : a = a' := by
  have hnd' : (m.map (fun p : ID × ID => p.2)).Nodup := hnd
  have := List.inj_on_of_nodup_map hnd' h1 h2 rfl
  exact congrArg Prod.fst this

theorem eraseA_eq_self {m : Bimap} {a : ID} (h : a ∉ keysA m) :
    eraseA m a = m := by
  rw [eraseA, List.filter_eq_self]
  intro p hp
  simp only [bne_iff_ne, ne_eq]
  intro hpa
  exact h (hpa ▸ mem_keysA hp)

theorem eraseB_eq_self {m : Bimap} {b : ID} (h : b ∉ keysB m) :
    eraseB m b = m := by
  rw [eraseB, List.filter_eq_self]
  intro p hp
  simp only [bne_iff_ne, ne_eq]
  intro hpb
  exact h (hpb ▸ mem_keysB hp)

/-- Erasing the B key of a pair keeps every other pair, under the
bijection invariant. -/
theorem mem_eraseB_of_ne {m : Bimap} (hwf : bimapWF m) {a b : ID}
    (hab : (a, b) ∈ m) {p : ID × ID} (hp : p ∈ m) (hne : p ≠ (a, b)) :
    p ∈ eraseB m b := by
  rw [mem_eraseB]
  refine ⟨hp, fun h2 => hne ?_⟩
  obtain ⟨x, y⟩ := p
  simp only at h2
  subst h2
  rw [Prod.mk.injEq]
  exact ⟨snd_inj hwf.2 hp hab, rfl⟩

/-- Erasing the A key of a pair keeps every other pair, under the
bijection invariant. -/
theorem mem_eraseA_of_ne {m : Bimap} (hwf : bimapWF m) {a b : ID}
    (hab : (a, b) ∈ m) {p : ID × ID} (hp : p ∈ m) (hne : p ≠ (a, b)) :
    p ∈ eraseA m a := by
  rw [mem_eraseA]
  refine ⟨hp, fun h1 => hne ?_⟩
  obtain ⟨x, y⟩ := p
  simp only at h1
  subst h1
  rw [Prod.mk.injEq]
  exact ⟨rfl, fst_inj hwf.1 hp hab⟩

/-! ### `mapKeys` (dict-comprehension) lemmas -/

theorem mapKeysAtoB_ok_mem {m : Bimap} {l l' : List ID}
    (h : mapKeysAtoB m l = .ok l') :
    ∀ x, x ∈ l' ↔ ∃ a ∈ l, lookupA m a = some x := by
  induction l generalizing l' with
  | nil =>
    simp only [mapKeysAtoB] at h
    cases h
    simp
  | cons a rest ih =>
    simp only [mapKeysAtoB] at h
    cases hl : lookupA m a with
    | none => rw [hl] at h; cases h
    | some b =>
      rw [hl] at h
      cases hr : mapKeysAtoB m rest with
      | error e => rw [hr] at h; cases h
      | ok lr =>
        rw [hr] at h
        cases h
        intro x
        simp only [List.mem_cons]
        constructor
        · rintro (rfl | hx)
          · exact ⟨a, Or.inl rfl, hl⟩
          · obtain ⟨a', ha', hla'⟩ := (ih hr x).1 hx
            exact ⟨a', Or.inr ha', hla'⟩
        · rintro ⟨a', (rfl | ha'), hla'⟩
          · rw [hl] at hla'
            cases hla'
            exact Or.inl rfl
          · exact Or.inr ((ih hr x).2 ⟨a', ha', hla'⟩)

theorem mapKeysBtoA_ok_mem {m : Bimap} {l l' : List ID}
    (h : mapKeysBtoA m l = .ok l') :
    ∀ x, x ∈ l' ↔ ∃ b ∈ l, lookupB m b = some x := by
  induction l generalizing l' with
  | nil =>
    simp only [mapKeysBtoA] at h
    cases h
    simp
  | cons b rest ih =>
    simp only [mapKeysBtoA] at h
    cases hl : lookupB m b with
    | none => rw [hl] at h; cases h
    | some a =>
      rw [hl] at h
      cases hr : mapKeysBtoA m rest with
      | error e => rw [hr] at h; cases h
      | ok lr =>
        rw [hr] at h
        cases h
        intro x
        simp only [List.mem_cons]
        constructor
        · rintro (rfl | hx)
          · exact ⟨b, Or.inl rfl, hl⟩
          · obtain ⟨b', hb', hlb'⟩ := (ih hr x).1 hx
            exact ⟨b', Or.inr hb', hlb'⟩
        · rintro ⟨b', (rfl | hb'), hlb'⟩
          · rw [hl] at hlb'
            cases hlb'
            exact Or.inl rfl
          · exact Or.inr ((ih hr x).2 ⟨b', hb', hlb'⟩)

theorem mapKeysAtoB_isSome {m : Bimap} {l l' : List ID}
    (h : mapKeysAtoB m l = .ok l') :
    ∀ a ∈ l, (lookupA m a).isSome := by
  induction l generalizing l' with
  | nil => simp
  | cons a rest ih =>
    simp only [mapKeysAtoB] at h
    cases hl : lookupA m a with
    | none => rw [hl] at h; cases h
    | some b =>
      rw [hl] at h
      cases hr : mapKeysAtoB m rest with
      | error e => rw [hr] at h; cases h
      | ok lr =>
        intro x hx
        rcases List.mem_cons.1 hx with rfl | hx'
        · simp [hl]
        · exact ih hr x hx'

theorem mapKeysBtoA_isSome {m : Bimap} {l l' : List ID}
    (h : mapKeysBtoA m l = .ok l') :
    ∀ b ∈ l, (lookupB m b).isSome := by
  induction l generalizing l' with
  | nil => simp
  | cons b rest ih =>
    simp only [mapKeysBtoA] at h
    cases hl : lookupB m b with
    | none => rw [hl] at h; cases h
    | some a =>
      rw [hl] at h
      cases hr : mapKeysBtoA m rest with
      | error e => rw [hr] at h; cases h
      | ok lr =>
        intro x hx
        rcases List.mem_cons.1 hx with rfl | hx'
        · simp [hl]
        · exact ih hr x hx'

/-! ### Statistics evolution: counters only grow, the error counter never
moves (shared groundwork for the statistics claims) -/

/-- How the statistics of a `SyncState` may evolve across any engine
operation: created/updated/deleted only grow, errors never change. -/
def evol (st st' : SyncState) : Prop :=
  st.statsA.created_new ≤ st'.statsA.created_new ∧
  st.statsA.updated ≤ st'.statsA.updated ∧
  st.statsA.deleted ≤ st'.statsA.deleted ∧
  st'.statsA.errors = st.statsA.errors ∧
  st.statsB.created_new ≤ st'.statsB.created_new ∧
  st.statsB.updated ≤ st'.statsB.updated ∧
  st.statsB.deleted ≤ st'.statsB.deleted ∧
  st'.statsB.errors = st.statsB.errors

theorem evol_refl (st : SyncState) : evol st st := by
  simp [evol]

theorem evol_trans {s t u : SyncState} (h1 : evol s t) (h2 : evol t u) :
    evol s u := by
  unfold evol at h1 h2 ⊢
  omega

theorem evol_createA (st : SyncState) :
    evol st { st with statsA := st.statsA.create_new } := by
  simp [evol, TypeStats.create_new]

theorem evol_createB (st : SyncState) :
    evol st { st with statsB := st.statsB.create_new } := by
  simp [evol, TypeStats.create_new]

theorem evol_updateA (st : SyncState) :
    evol st { st with statsA := st.statsA.update } := by
  simp [evol, TypeStats.update]

theorem evol_updateB (st : SyncState) :
    evol st { st with statsB := st.statsB.update } := by
  simp [evol, TypeStats.update]

theorem evol_deleteA (st : SyncState) {m : Bimap} :
    evol st { st with a2b := m, statsA := st.statsA.delete } := by
  simp [evol, TypeStats.delete]

theorem evol_deleteB (st : SyncState) {m : Bimap} :
    evol st { st with a2b := m, statsB := st.statsB.delete } := by
  simp [evol, TypeStats.delete]

theorem evol_map (st : SyncState) {m : Bimap} :
    evol st { st with a2b := m } := by
  simp [evol]

theorem evol_convert_n_insert {env : Env} {id_ : ID} {side : Side}
    {st : SyncState} {oid : Option ID} {st' : SyncState}
    (h : (convert_n_insert env id_ side st).2 = .ok (oid, st')) :
    evol st st' := by
  cases side
  all_goals (
    simp only [convert_n_insert] at h
    split at h
    · exact Except.noConfusion h
    · injection h with h'
      injection h' with h1 h2
      subst h2
      exact evol_refl st
    · split at h
      · injection h with h'
        injection h' with h1 h2
        subst h2
        exact evol_refl st
      · injection h with h'
        injection h' with h1 h2
        subst h2
        exact evol_refl st
      · split at h
        all_goals (
          injection h with h'
          injection h' with h1 h2
          subst h2
          first
            | exact evol_createA st
            | exact evol_createB st))

theorem evol_sync_new_loop {env : Env} {side : Side} :
    ∀ {ids : List ID} {st st' : SyncState},
      (sync_new_loop env side ids st).2 = .ok st' → evol st st'
  | [], st, st', h => by
    replace h : Except.ok st = Except.ok st' := h
    injection h with h
    subst h
    exact evol_refl st
  | id_ :: rest, st, st', h => by
    simp only [sync_new_loop] at h
    split at h
    next e heq => exact Except.noConfusion h
    next st1 heq =>
      replace h : (sync_new_loop env side rest st1).2 = .ok st' := h
      exact evol_trans (evol_convert_n_insert heq) (evol_sync_new_loop h)
    next inserted_id st1 heq =>
      split at h
      next => exact Except.noConfusion h
      next m2 hm =>
        replace h : (sync_new_loop env side rest { st1 with a2b := m2 }).2 = .ok st' := h
        exact evol_trans (evol_convert_n_insert heq)
          (evol_trans (evol_map st1) (evol_sync_new_loop h))

theorem evol_sync_new_items {env : Env} {chA chB : SideChanges}
    {st st' : SyncState} (h : (sync_new_items env chA chB st).2 = .ok st') :
    evol st st' := by
  simp only [sync_new_items] at h
  split at h
  next e heq => exact Except.noConfusion h
  next st1 heq =>
    replace h : (sync_new_loop env .A chB.new st1).2 = .ok st' := h
    exact evol_trans (evol_sync_new_loop heq) (evol_sync_new_loop h)

theorem evol_convert_n_update_to_A {env : Env} {id_A : ID}
    {item : Option Item} {st st' : SyncState}
    (h : (convert_n_update_to_A env id_A item st).2 = .ok st') :
    evol st st' := by
  simp only [convert_n_update_to_A] at h
  split at h
  · exact Except.noConfusion h
  · split at h
    · injection h with h
      subst h
      exact evol_refl st
    · injection h with h
      subst h
      exact evol_refl st
    · injection h with h
      subst h
      exact evol_updateA st

theorem evol_convert_n_update_to_B {env : Env} {id_B : ID}
    {item : Option Item} {st st' : SyncState}
    (h : (convert_n_update_to_B env id_B item st).2 = .ok st') :
    evol st st' := by
  simp only [convert_n_update_to_B] at h
  split at h
  · exact Except.noConfusion h
  · split at h
    · injection h with h
      subst h
      exact evol_refl st
    · injection h with h
      subst h
      exact evol_refl st
    · injection h with h
      subst h
      exact evol_updateB st

theorem evol_conflict_step {env : Env} {rs : RS} {chA chB : SideChanges}
    {b : ID} {st st' : SyncState}
    (h : (conflict_step env rs chA chB b st).2 = .ok st') :
    evol st st' := by
  simp only [conflict_step] at h
  split at h
  · exact Except.noConfusion h
  next conflict_in_A heqB =>
    split at h
    · exact Except.noConfusion h
    next item_B heqgB =>
      split at h
      · exact Except.noConfusion h
      next item_A heqgA =>
        split at h
        · exact Except.noConfusion h
        · -- winner A
          split at h
          · -- item_A = none
            split at h
            · split at h
              · exact Except.noConfusion h
              next m2 hpop =>
                injection h with h
                subst h
                exact evol_map st
            · injection h with h
              subst h
              exact evol_deleteB st
          · rename_i iA hiA
            replace h : (convert_n_update_to_B env b (some iA) st).2 = .ok st' := h
            exact evol_convert_n_update_to_B h
        · -- winner B
          split at h
          · split at h
            · split at h
              · exact Except.noConfusion h
              next m2 hpop =>
                injection h with h
                subst h
                exact evol_map st
            · injection h with h
              subst h
              exact evol_deleteA st
          · rename_i iB hiB
            replace h : (convert_n_update_to_A env conflict_in_A (some iB) st).2 = .ok st' := h
            exact evol_convert_n_update_to_A h

theorem evol_conflict_loop {env : Env} {rs : RS} {chA chB : SideChanges} :
    ∀ {l : List ID} {st st' : SyncState},
      (conflict_loop env rs chA chB l st).2 = .ok st' → evol st st'
  | [], st, st', h => by
    replace h : Except.ok st = Except.ok st' := h
    injection h with h
    subst h
    exact evol_refl st
  | b :: rest, st, st', h => by
    simp only [conflict_loop] at h
    split at h
    next e heq => exact Except.noConfusion h
    next st1 heq =>
      replace h : (conflict_loop env rs chA chB rest st1).2 = .ok st' := h
      exact evol_trans (evol_conflict_step heq) (evol_conflict_loop h)

theorem evol_non_conflict_B_step {env : Env} {chB : SideChanges} {id_B : ID}
    {st st' : SyncState}
    (h : (non_conflict_B_step env chB id_B st).2 = .ok st') :
    evol st st' := by
  simp only [non_conflict_B_step] at h
  split at h
  · exact Except.noConfusion h
  next id_A heqB =>
    split at h
    · split at h
      · exact Except.noConfusion h
      next item_B heqg =>
        replace h : (convert_n_update_to_A env id_A item_B st).2 = .ok st' := h
        exact evol_convert_n_update_to_A h
    · split at h
      · injection h with h
        subst h
        exact evol_deleteA st
      · exact Except.noConfusion h

theorem evol_non_conflict_B_loop {env : Env} {chB : SideChanges} :
    ∀ {l : List ID} {st st' : SyncState},
      (non_conflict_B_loop env chB l st).2 = .ok st' → evol st st'
  | [], st, st', h => by
    replace h : Except.ok st = Except.ok st' := h
    injection h with h
    subst h
    exact evol_refl st
  | b :: rest, st, st', h => by
    simp only [non_conflict_B_loop] at h
    split at h
    next e heq => exact Except.noConfusion h
    next st1 heq =>
      replace h : (non_conflict_B_loop env chB rest st1).2 = .ok st' := h
      exact evol_trans (evol_non_conflict_B_step heq) (evol_non_conflict_B_loop h)

theorem evol_non_conflict_A_step {env : Env} {chA : SideChanges} {id_A : ID}
    {st st' : SyncState}
    (h : (non_conflict_A_step env chA id_A st).2 = .ok st') :
    evol st st' := by
  simp only [non_conflict_A_step] at h
  split at h
  · exact Except.noConfusion h
  next id_B heqA =>
    split at h
    · split at h
      · exact Except.noConfusion h
      next item_A heqg =>
        replace h : (convert_n_update_to_B env id_B item_A st).2 = .ok st' := h
        exact evol_convert_n_update_to_B h
    · split at h
      · injection h with h
        subst h
        exact evol_deleteB st
      · exact Except.noConfusion h

theorem evol_non_conflict_A_loop {env : Env} {chA : SideChanges} :
    ∀ {l : List ID} {st st' : SyncState},
      (non_conflict_A_loop env chA l st).2 = .ok st' → evol st st'
  | [], st, st', h => by
    replace h : Except.ok st = Except.ok st' := h
    injection h with h
    subst h
    exact evol_refl st
  | a :: rest, st, st', h => by
    simp only [non_conflict_A_loop] at h
    split at h
    next e heq => exact Except.noConfusion h
    next st1 heq =>
      replace h : (non_conflict_A_loop env chA rest st1).2 = .ok st' := h
      exact evol_trans (evol_non_conflict_A_step heq) (evol_non_conflict_A_loop h)

theorem evol_syncCore {env : Env} {rs : RS} {chA chB : SideChanges}
    {st st' : SyncState} (h : (syncCore env rs chA chB st).2 = .ok st') :
    evol st st' := by
  simp only [syncCore] at h
  split at h
  · exact Except.noConfusion h
  next tBinA heqBA =>
    split at h
    · exact Except.noConfusion h
    next tAinB heqAB =>
      split at h
      · exact Except.noConfusion h
      next st2 heq2 =>
        split at h
        · exact Except.noConfusion h
        next st3 heq3 =>
          replace h : (non_conflict_A_loop env chA
              ((touched_from_A chA).filter (fun a => decide (a ∉ tBinA))) st3).2 = .ok st' := h
          exact evol_trans (evol_conflict_loop heq2)
            (evol_trans (evol_non_conflict_B_loop heq3) (evol_non_conflict_A_loop h))

theorem evol_sync {env : Env} {rs : RS} {chA chB : SideChanges}
    {st st' : SyncState} (h : (sync env rs chA chB st).2 = .ok st') :
    evol st st' := by
  simp only [sync] at h
  split at h
  · exact Except.noConfusion h
  next st1 heq =>
    replace h : (syncCore env rs chA chB st1).2 = .ok st' := h
    exact evol_trans (evol_sync_new_items heq) (evol_syncCore h)

/-! ### The phase 2–4 loops never add map entries (map shrinks) -/

theorem sub_delete_n_pop_A (env : Env) (id_ : ID) (m : Bimap) :
    (delete_n_pop_A env id_ m).Sublist m := by
  unfold delete_n_pop_A
  split
  · exact List.Sublist.refl m
  · exact eraseA_sublist m id_

theorem sub_delete_n_pop_B (env : Env) (id_ : ID) (m : Bimap) :
    (delete_n_pop_B env id_ m).Sublist m := by
  unfold delete_n_pop_B
  split
  · exact List.Sublist.refl m
  · exact eraseB_sublist m id_

theorem a2b_convert_n_update_to_A {env : Env} {id_A : ID}
    {item : Option Item} {st st' : SyncState}
    (h : (convert_n_update_to_A env id_A item st).2 = .ok st') :
    st'.a2b = st.a2b := by
  simp only [convert_n_update_to_A] at h
  split at h
  · exact Except.noConfusion h
  · split at h <;>
      (injection h with h
       subst h
       rfl)

theorem a2b_convert_n_update_to_B {env : Env} {id_B : ID}
    {item : Option Item} {st st' : SyncState}
    (h : (convert_n_update_to_B env id_B item st).2 = .ok st') :
    st'.a2b = st.a2b := by
  simp only [convert_n_update_to_B] at h
  split at h
  · exact Except.noConfusion h
  · split at h <;>
      (injection h with h
       subst h
       rfl)

theorem sub_conflict_step {env : Env} {rs : RS} {chA chB : SideChanges}
    {b : ID} {st st' : SyncState}
    (h : (conflict_step env rs chA chB b st).2 = .ok st') :
    st'.a2b.Sublist st.a2b := by
  simp only [conflict_step] at h
  split at h
  · exact Except.noConfusion h
  next conflict_in_A heqB =>
    split at h
    · exact Except.noConfusion h
    next item_B heqgB =>
      split at h
      · exact Except.noConfusion h
      next item_A heqgA =>
        split at h
        · exact Except.noConfusion h
        · split at h
          · split at h
            · split at h
              · exact Except.noConfusion h
              next m2 hpop =>
                injection h with h
                subst h
                simp only [popB] at hpop
                split at hpop
                · injection hpop with hpop
                  subst hpop
                  exact eraseB_sublist st.a2b b
                · exact Except.noConfusion hpop
            · injection h with h
              subst h
              exact sub_delete_n_pop_B env b st.a2b
          · rename_i iA hiA
            replace h : (convert_n_update_to_B env b (some iA) st).2 = .ok st' := h
            rw [a2b_convert_n_update_to_B h]
        · split at h
          · split at h
            · split at h
              · exact Except.noConfusion h
              next m2 hpop =>
                injection h with h
                subst h
                simp only [popA] at hpop
                split at hpop
                · injection hpop with hpop
                  subst hpop
                  exact eraseA_sublist st.a2b conflict_in_A
                · exact Except.noConfusion hpop
            · injection h with h
              subst h
              exact sub_delete_n_pop_A env conflict_in_A st.a2b
          · rename_i iB hiB
            replace h : (convert_n_update_to_A env conflict_in_A (some iB) st).2 = .ok st' := h
            rw [a2b_convert_n_update_to_A h]

theorem sub_conflict_loop {env : Env} {rs : RS} {chA chB : SideChanges} :
    ∀ {l : List ID} {st st' : SyncState},
      (conflict_loop env rs chA chB l st).2 = .ok st' → st'.a2b.Sublist st.a2b
  | [], st, st', h => by
    replace h : Except.ok st = Except.ok st' := h
    injection h with h
    subst h
    exact List.Sublist.refl _
  | b :: rest, st, st', h => by
    simp only [conflict_loop] at h
    split at h
    next e heq => exact Except.noConfusion h
    next st1 heq =>
      replace h : (conflict_loop env rs chA chB rest st1).2 = .ok st' := h
      exact (sub_conflict_loop h).trans (sub_conflict_step heq)

theorem sub_non_conflict_B_step {env : Env} {chB : SideChanges} {id_B : ID}
    {st st' : SyncState}
    (h : (non_conflict_B_step env chB id_B st).2 = .ok st') :
    st'.a2b.Sublist st.a2b := by
  simp only [non_conflict_B_step] at h
  split at h
  · exact Except.noConfusion h
  next id_A heqB =>
    split at h
    · split at h
      · exact Except.noConfusion h
      next item_B heqg =>
        replace h : (convert_n_update_to_A env id_A item_B st).2 = .ok st' := h
        rw [a2b_convert_n_update_to_A h]
    · split at h
      · injection h with h
        subst h
        exact sub_delete_n_pop_A env id_A st.a2b
      · exact Except.noConfusion h

theorem sub_non_conflict_B_loop {env : Env} {chB : SideChanges} :
    ∀ {l : List ID} {st st' : SyncState},
      (non_conflict_B_loop env chB l st).2 = .ok st' → st'.a2b.Sublist st.a2b
  | [], st, st', h => by
    replace h : Except.ok st = Except.ok st' := h
    injection h with h
    subst h
    exact List.Sublist.refl _
  | b :: rest, st, st', h => by
    simp only [non_conflict_B_loop] at h
    split at h
    next e heq => exact Except.noConfusion h
    next st1 heq =>
      replace h : (non_conflict_B_loop env chB rest st1).2 = .ok st' := h
      exact (sub_non_conflict_B_loop h).trans (sub_non_conflict_B_step heq)

theorem sub_non_conflict_A_step {env : Env} {chA : SideChanges} {id_A : ID}
    {st st' : SyncState}
    (h : (non_conflict_A_step env chA id_A st).2 = .ok st') :
    st'.a2b.Sublist st.a2b := by
  simp only [non_conflict_A_step] at h
  split at h
  · exact Except.noConfusion h
  next id_B heqA =>
    split at h
    · split at h
      · exact Except.noConfusion h
      next item_A heqg =>
        replace h : (convert_n_update_to_B env id_B item_A st).2 = .ok st' := h
        rw [a2b_convert_n_update_to_B h]
    · split at h
      · injection h with h
        subst h
        exact sub_delete_n_pop_B env id_B st.a2b
      · exact Except.noConfusion h

theorem sub_non_conflict_A_loop {env : Env} {chA : SideChanges} :
    ∀ {l : List ID} {st st' : SyncState},
      (non_conflict_A_loop env chA l st).2 = .ok st' → st'.a2b.Sublist st.a2b
  | [], st, st', h => by
    replace h : Except.ok st = Except.ok st' := h
    injection h with h
    subst h
    exact List.Sublist.refl _
  | a :: rest, st, st', h => by
    simp only [non_conflict_A_loop] at h
    split at h
    next e heq => exact Except.noConfusion h
    next st1 heq =>
      replace h : (non_conflict_A_loop env chA rest st1).2 = .ok st' := h
      exact (sub_non_conflict_A_loop h).trans (sub_non_conflict_A_step heq)

/-! ### Loop decomposition over list append -/

theorem conflict_loop_append {env : Env} {rs : RS} {chA chB : SideChanges}
    {l1 : List ID} :
    ∀ {l2 : List ID} {st st1 : SyncState} {tr1 : List Ev},
      conflict_loop env rs chA chB l1 st = (tr1, .ok st1) →
      conflict_loop env rs chA chB (l1 ++ l2) st =
        (tr1 ++ (conflict_loop env rs chA chB l2 st1).1,
          (conflict_loop env rs chA chB l2 st1).2) := by
  induction l1 with
  | nil =>
    intro l2 st st1 tr1 h
    simp only [conflict_loop] at h
    have h1 := congrArg Prod.fst h
    have h2 := congrArg Prod.snd h
    simp only at h1 h2
    injection h2 with h2
    subst h2
    subst h1
    simp
  | cons b rest ih =>
    intro l2 st st1 tr1 h
    simp only [conflict_loop, List.cons_append] at h ⊢
    split at h
    next e heq =>
      have h2 := congrArg Prod.snd h
      exact absurd h2 (by simp)
    next stm heq =>
      have h1 := congrArg Prod.fst h
      have h2 := congrArg Prod.snd h
      simp only at h1 h2
      simp only [List.append_eq]
      rw [ih (Prod.mk.injEq .. ▸ ⟨rfl, h2⟩ :
        conflict_loop env rs chA chB rest stm =
          ((conflict_loop env rs chA chB rest stm).1, Except.ok st1))]
      subst h1
      simp [List.append_assoc]

theorem non_conflict_B_loop_append {env : Env} {chB : SideChanges}
    {l1 : List ID} :
    ∀ {l2 : List ID} {st st1 : SyncState} {tr1 : List Ev},
      non_conflict_B_loop env chB l1 st = (tr1, .ok st1) →
      non_conflict_B_loop env chB (l1 ++ l2) st =
        (tr1 ++ (non_conflict_B_loop env chB l2 st1).1,
          (non_conflict_B_loop env chB l2 st1).2) := by
  induction l1 with
  | nil =>
    intro l2 st st1 tr1 h
    simp only [non_conflict_B_loop] at h
    have h1 := congrArg Prod.fst h
    have h2 := congrArg Prod.snd h
    simp only at h1 h2
    injection h2 with h2
    subst h2
    subst h1
    simp
  | cons b rest ih =>
    intro l2 st st1 tr1 h
    simp only [non_conflict_B_loop, List.cons_append] at h ⊢
    split at h
    next e heq =>
      have h2 := congrArg Prod.snd h
      exact absurd h2 (by simp)
    next stm heq =>
      have h1 := congrArg Prod.fst h
      have h2 := congrArg Prod.snd h
      simp only at h1 h2
      simp only [List.append_eq]
      rw [ih (Prod.mk.injEq .. ▸ ⟨rfl, h2⟩ :
        non_conflict_B_loop env chB rest stm =
          ((non_conflict_B_loop env chB rest stm).1, Except.ok st1))]
      subst h1
      simp [List.append_assoc]

theorem non_conflict_A_loop_append {env : Env} {chA : SideChanges}
    {l1 : List ID} :
    ∀ {l2 : List ID} {st st1 : SyncState} {tr1 : List Ev},
      non_conflict_A_loop env chA l1 st = (tr1, .ok st1) →
      non_conflict_A_loop env chA (l1 ++ l2) st =
        (tr1 ++ (non_conflict_A_loop env chA l2 st1).1,
          (non_conflict_A_loop env chA l2 st1).2) := by
  induction l1 with
  | nil =>
    intro l2 st st1 tr1 h
    simp only [non_conflict_A_loop] at h
    have h1 := congrArg Prod.fst h
    have h2 := congrArg Prod.snd h
    simp only at h1 h2
    injection h2 with h2
    subst h2
    subst h1
    simp
  | cons a rest ih =>
    intro l2 st st1 tr1 h
    simp only [non_conflict_A_loop, List.cons_append] at h ⊢
    split at h
    next e heq =>
      have h2 := congrArg Prod.snd h
      exact absurd h2 (by simp)
    next stm heq =>
      have h1 := congrArg Prod.fst h
      have h2 := congrArg Prod.snd h
      simp only at h1 h2
      simp only [List.append_eq]
      rw [ih (Prod.mk.injEq .. ▸ ⟨rfl, h2⟩ :
        non_conflict_A_loop env chA rest stm =
          ((non_conflict_A_loop env chA rest stm).1, Except.ok st1))]
      subst h1
      simp [List.append_assoc]

/-! ### Phases 2–4 ignore the `new` component of side A's change set -/

theorem conflict_step_newA_irrel (env : Env) (rs : RS)
    (n1 n2 mo de : List ID) (chB : SideChanges) (b : ID) (st : SyncState) :
    conflict_step env rs ⟨n1, mo, de⟩ chB b st =
      conflict_step env rs ⟨n2, mo, de⟩ chB b st := rfl

theorem conflict_loop_newA_irrel (env : Env) (rs : RS)
    (n1 n2 mo de : List ID) (chB : SideChanges) :
    ∀ (l : List ID) (st : SyncState),
      conflict_loop env rs ⟨n1, mo, de⟩ chB l st =
        conflict_loop env rs ⟨n2, mo, de⟩ chB l st
  | [], st => rfl
  | b :: rest, st => by
    simp only [conflict_loop, conflict_step_newA_irrel env rs n1 n2 mo de chB,
      conflict_loop_newA_irrel env rs n1 n2 mo de chB rest]

theorem non_conflict_A_step_newA_irrel (env : Env)
    (n1 n2 mo de : List ID) (a : ID) (st : SyncState) :
    non_conflict_A_step env ⟨n1, mo, de⟩ a st =
      non_conflict_A_step env ⟨n2, mo, de⟩ a st := rfl

theorem non_conflict_A_loop_newA_irrel (env : Env)
    (n1 n2 mo de : List ID) :
    ∀ (l : List ID) (st : SyncState),
      non_conflict_A_loop env ⟨n1, mo, de⟩ l st =
        non_conflict_A_loop env ⟨n2, mo, de⟩ l st
  | [], st => rfl
  | a :: rest, st => by
    simp only [non_conflict_A_loop, non_conflict_A_step_newA_irrel env n1 n2 mo de,
      non_conflict_A_loop_newA_irrel env n1 n2 mo de rest]

theorem syncCore_newA_irrel (env : Env) (rs : RS)
    (n1 n2 mo de : List ID) (chB : SideChanges) (st : SyncState) :
    syncCore env rs ⟨n1, mo, de⟩ chB st = syncCore env rs ⟨n2, mo, de⟩ chB st := by
  simp only [syncCore, touched_from_A, conflict_loop_newA_irrel env rs n1 n2 mo de chB,
    non_conflict_A_loop_newA_irrel env n1 n2 mo de]

/-! ### Claim C4 — recency-based resolution strategies -/

/-- C4: For the recency-based resolution strategies: when both items are
present with distinct extracted dates, `MostRecentRS` returns the item
with the later date and `LeastRecentRS` the item with the earlier date;
when the extracted dates are equal, both return side A's item; when
exactly one item is absent, the present side's item is returned
regardless of dates; when both items are absent, side A wins. -/
theorem c4_recency_resolution (dgA dgB : Item → Date) (iA iB : Item) :
    (dgB iB < dgA iA →
      MostRecentRS.resolve dgA dgB (some iA) (some iB) = ⟨RID.A, some iA⟩ ∧
      LeastRecentRS.resolve dgA dgB (some iA) (some iB) = ⟨RID.B, some iB⟩) ∧
    (dgA iA < dgB iB →
      MostRecentRS.resolve dgA dgB (some iA) (some iB) = ⟨RID.B, some iB⟩ ∧
      LeastRecentRS.resolve dgA dgB (some iA) (some iB) = ⟨RID.A, some iA⟩) ∧
    (dgA iA = dgB iB →
      MostRecentRS.resolve dgA dgB (some iA) (some iB) = ⟨RID.A, some iA⟩ ∧
      LeastRecentRS.resolve dgA dgB (some iA) (some iB) = ⟨RID.A, some iA⟩) ∧
    (MostRecentRS.resolve dgA dgB (some iA) none = ⟨RID.A, some iA⟩ ∧
      LeastRecentRS.resolve dgA dgB (some iA) none = ⟨RID.A, some iA⟩ ∧
      MostRecentRS.resolve dgA dgB none (some iB) = ⟨RID.B, some iB⟩ ∧
      LeastRecentRS.resolve dgA dgB none (some iB) = ⟨RID.B, some iB⟩) ∧
    (MostRecentRS.resolve dgA dgB none none = ⟨RID.A, none⟩ ∧
      LeastRecentRS.resolve dgA dgB none none = ⟨RID.A, none⟩) := by
  refine ⟨fun h => ⟨?_, ?_⟩, fun h => ⟨?_, ?_⟩, fun h => ⟨?_, ?_⟩,
    ⟨rfl, rfl, rfl, rfl⟩, ⟨rfl, rfl⟩⟩
  · simp [MostRecentRS.resolve, RecencyRS.resolve, h.le]
  · simp [LeastRecentRS.resolve, RecencyRS.resolve, not_le.mpr h]
  · simp [MostRecentRS.resolve, RecencyRS.resolve, not_le.mpr h]
  · simp [LeastRecentRS.resolve, RecencyRS.resolve, h.le]
  · simp [MostRecentRS.resolve, RecencyRS.resolve, h]
  · simp [LeastRecentRS.resolve, RecencyRS.resolve, h]

/-- Witness for C4 at concrete dates 1 (side A) and 0 (side B). -/
theorem c4_witness :
    ((0 : Date) < (1 : Date)) ∧
    MostRecentRS.resolve (fun _ => (1 : Date)) (fun _ => (0 : Date))
      (some "x") (some "y") = ⟨RID.A, some "x"⟩ ∧
    LeastRecentRS.resolve (fun _ => (1 : Date)) (fun _ => (0 : Date))
      (some "x") (some "y") = ⟨RID.B, some "y"⟩ :=
  ⟨by decide,
    ((c4_recency_resolution (fun _ => 1) (fun _ => 0) "x" "y").1 (by decide)).1,
    ((c4_recency_resolution (fun _ => 1) (fun _ => 0) "x" "y").1 (by decide)).2⟩

/-! ### Claim C7 — deleter success removes the map pair, deleter failure
leaves it -/

/-- C7: For every delete performed by the engine (the engine's deleters are
`delete_n_pop_A` / `delete_n_pop_B`): when the deleter callback succeeds,
the deleted identifier's pair is removed from the correspondence map in
both directions; when the deleter callback raises, the failure is caught
(the wrapper returns normally) and the map is left unchanged. -/
theorem c7_delete_n_pop (env : Env) (id_ : ID) (m : Bimap)
    (hwf : bimapWF m) :
    (env.deleter_to_A id_ = .ok () →
      lookupA (delete_n_pop_A env id_ m) id_ = none ∧
      ∀ b, lookupA m id_ = some b → lookupB (delete_n_pop_A env id_ m) b = none) ∧
    (env.deleter_to_A id_ = .error () → delete_n_pop_A env id_ m = m) ∧
    (env.deleter_to_B id_ = .ok () →
      lookupB (delete_n_pop_B env id_ m) id_ = none ∧
      ∀ a, lookupB m id_ = some a → lookupA (delete_n_pop_B env id_ m) a = none) ∧
    (env.deleter_to_B id_ = .error () → delete_n_pop_B env id_ m = m) := by
  refine ⟨fun hok => ?_, fun herr => ?_, fun hok => ?_, fun herr => ?_⟩
  · have hd : delete_n_pop_A env id_ m = eraseA m id_ := by
      simp [delete_n_pop_A, hok]
    rw [hd]
    constructor
    · rw [lookupA_eq_none]
      intro p hp
      exact (mem_eraseA.1 hp).2
    · intro b hb
      have hmem : (id_, b) ∈ m := lookupA_mem hb
      rw [lookupB_eq_none]
      intro p hp hpb
      have hp' := mem_eraseA.1 hp
      exact hp'.2 (snd_inj hwf.2 (hpb ▸ hp'.1 : (p.1, b) ∈ m) hmem ▸ rfl)
  · simp [delete_n_pop_A, herr]
  · have hd : delete_n_pop_B env id_ m = eraseB m id_ := by
      simp [delete_n_pop_B, hok]
    rw [hd]
    constructor
    · rw [lookupB_eq_none]
      intro p hp
      exact (mem_eraseB.1 hp).2
    · intro a ha
      have hmem : (a, id_) ∈ m := lookupB_mem ha
      rw [lookupA_eq_none]
      intro p hp hpa
      have hp' := mem_eraseB.1 hp
      exact hp'.2 (fst_inj hwf.1 (hpa ▸ hp'.1 : (a, p.2) ∈ m) hmem ▸ rfl)
  · simp [delete_n_pop_B, herr]

/-- Environment whose deleters always succeed, used as a witness input. -/
def wEnvDelOk : Env where
  item_getter_A := fun _ => .keyErr
  item_getter_B := fun _ => .keyErr
  converter_to_A := fun it => .ok (some it)
  converter_to_B := fun it => .ok (some it)
  inserter_to_A := fun _ => .ok "na"
  inserter_to_B := fun _ => .ok "nb"
  updater_to_A := fun _ _ => .ok ()
  updater_to_B := fun _ _ => .ok ()
  deleter_to_A := fun _ => .ok ()
  deleter_to_B := fun _ => .ok ()

/-- Witness for C7 on the one-pair map `[("a1", "b1")]`. -/
theorem c7_witness :
    bimapWF [(("a1" : ID), ("b1" : ID))] ∧
    wEnvDelOk.deleter_to_A "a1" = .ok () ∧
    lookupA (delete_n_pop_A wEnvDelOk "a1" [("a1", "b1")]) "a1" = none ∧
    lookupB (delete_n_pop_A wEnvDelOk "a1" [("a1", "b1")]) "b1" = none := by
  have h := (c7_delete_n_pop wEnvDelOk "a1" [("a1", "b1")] (by decide)).1 rfl
  exact ⟨by decide, rfl, h.1, h.2 "b1" (by decide)⟩

/-! ### Claim C10 — only `KeyError` becomes an absent item, other getter
exceptions abort `sync` -/

/-- C10: The getter wrappers map only a raised `KeyError` to an absent
(`none`) result; any other exception raised by an item getter is not
caught by the engine and propagates out of `sync`, aborting the run.
Stated on the first identifier of side A's `new` list: a `KeyError`
getter means the identifier is skipped and the run continues on the rest,
while any other getter exception makes `sync` return the error with no
further callback invoked; the last conjunct characterizes the wrapper
itself for arbitrary getters. -/
theorem c10_getter_exceptions (env : Env) (rs : RS)
    (chA chB : SideChanges) (st : SyncState) (b : ID) (rest : List ID)
    (hn : chA.new = b :: rest) :
    (env.item_getter_A b = RawGet.keyErr →
      sync env rs chA chB st =
        (Ev.getA b :: (sync env rs { chA with new := rest } chB st).1,
          (sync env rs { chA with new := rest } chB st).2)) ∧
    (env.item_getter_A b = RawGet.otherExc →
      sync env rs chA chB st = ([Ev.getA b], .error .getterExc)) ∧
    (∀ g : ID → RawGet, ∀ i : ID,
      (item_getter_handle_exc g i = .ok none ↔ g i = RawGet.keyErr) ∧
      (item_getter_handle_exc g i = .error .getterExc ↔
        g i = RawGet.otherExc)) := by
  refine ⟨fun hk => ?_, fun ho => ?_, fun g i => by
    cases h : g i <;> simp [item_getter_handle_exc, h]⟩
  · have hstep : convert_n_insert env b Side.B st = ([Ev.getA b], .ok (none, st)) := by
      simp [convert_n_insert, hk]
    have hloop : sync_new_loop env .B chA.new st =
        (Ev.getA b :: (sync_new_loop env .B rest st).1,
          (sync_new_loop env .B rest st).2) := by
      rw [hn]
      simp [sync_new_loop, hstep]
    have hirr : ∀ st1 : SyncState,
        syncCore env rs { chA with new := rest } chB st1 =
          syncCore env rs chA chB st1 := fun st1 =>
      syncCore_newA_irrel env rs rest chA.new chA.modified chA.deleted chB st1
    simp only [sync, sync_new_items, hloop, hirr]
    cases h1 : (sync_new_loop env Side.B rest st).2 with
    | error e => simp [h1]
    | ok st1 =>
      cases h2 : (sync_new_loop env Side.A chB.new st1).2 with
      | error e => simp [h1, h2]
      | ok st2 => simp [h1, h2]
  · have hstep : convert_n_insert env b Side.B st =
        ([Ev.getA b], .error .getterExc) := by
      simp [convert_n_insert, ho]
    have hloop : sync_new_loop env .B chA.new st =
        ([Ev.getA b], .error .getterExc) := by
      rw [hn]
      simp [sync_new_loop, hstep]
    simp only [sync, sync_new_items, hloop]

/-- Environment whose A getter raises a non-`KeyError` exception, used as a
witness input. -/
def wEnvGetExc : Env :=
  { wEnvDelOk with item_getter_A := fun _ => .otherExc }

/-- Witness for C10: a `KeyError` getter skips and continues; a
non-`KeyError` getter aborts the whole run. -/
theorem c10_witness :
    sync wEnvDelOk AlwaysFirstRS.resolve ⟨["n1"], [], []⟩ ⟨[], [], []⟩
        ⟨[], .init, .init⟩ =
      (Ev.getA "n1" ::
        (sync wEnvDelOk AlwaysFirstRS.resolve ⟨[], [], []⟩ ⟨[], [], []⟩
          ⟨[], .init, .init⟩).1,
        (sync wEnvDelOk AlwaysFirstRS.resolve ⟨[], [], []⟩ ⟨[], [], []⟩
          ⟨[], .init, .init⟩).2) ∧
    sync wEnvGetExc AlwaysFirstRS.resolve ⟨["n1"], [], []⟩ ⟨[], [], []⟩
        ⟨[], .init, .init⟩ = ([Ev.getA "n1"], .error .getterExc) :=
  ⟨(c10_getter_exceptions wEnvDelOk AlwaysFirstRS.resolve ⟨["n1"], [], []⟩
      ⟨[], [], []⟩ ⟨[], .init, .init⟩ "n1" [] rfl).1 rfl,
    (c10_getter_exceptions wEnvGetExc AlwaysFirstRS.resolve ⟨["n1"], [], []⟩
      ⟨[], [], []⟩ ⟨[], .init, .init⟩ "n1" [] rfl).2.1 rfl⟩

/-! ### Claim C5 — callback failures: caught and skipped, but never counted
as errors, and the created/updated/deleted counters still move -/

/-- Environment with one always-present A item whose insertion into B
always raises, used as the C5 counterexample input. -/
def wEnvInsFail : Env :=
  { wEnvDelOk with
    item_getter_A := fun _ => .ok "ia"
    inserter_to_B := fun _ => .error () }

/-- Counterexample to C5 as stated: with a single new A-side identifier
whose B inserter raises, the run succeeds and ends with
`statsB = ⟨created 1, updated 0, deleted 0, errors 0⟩` — the failure is
*not* counted in the error statistic (it stays 0), and the created
statistic *is* incremented for the failed identifier (first conjunct);
the outcome the claim predicts (created 0, errors 1) does not occur
(second conjunct). -/
theorem c5_counterexample :
    (sync wEnvInsFail AlwaysFirstRS.resolve ⟨["n1"], [], []⟩ ⟨[], [], []⟩
        ⟨[], .init, .init⟩).2 =
      .ok ⟨[], .init, { created_new := 1, updated := 0, deleted := 0, errors := 0 }⟩ ∧
    ¬ (sync wEnvInsFail AlwaysFirstRS.resolve ⟨["n1"], [], []⟩ ⟨[], [], []⟩
        ⟨[], .init, .init⟩).2 =
      .ok ⟨[], .init, { created_new := 0, updated := 0, deleted := 0, errors := 1 }⟩ := by
  decide

/-- C5 (amended): every insert/update/delete/convert callback that raises
is caught by `_catch_exc` and the run continues with the remaining
identifiers, and the failed invocation neither adds nor removes a
correspondence-map entry; *however* the failure is never counted in any
error statistic (the errors counters are unchanged across every
successful run — `TypeStats.error` is dead code), and a raising
inserter / updater / deleter still increments the side's
created/updated/deleted counter; only a raising converter leaves the
statistics untouched. -/
theorem c5_callback_failures :
    (∀ (env : Env) (rs : RS) (chA chB : SideChanges) (st st' : SyncState),
      (sync env rs chA chB st).2 = .ok st' →
      st'.statsA.errors = st.statsA.errors ∧
      st'.statsB.errors = st.statsB.errors) ∧
    (∀ (env : Env) (id_ : ID) (st : SyncState) (it ci : Item),
      env.item_getter_A id_ = .ok it →
      env.converter_to_B it = .ok (some ci) →
      env.inserter_to_B ci = .error () →
      convert_n_insert env id_ .B st =
        ([.getA id_, .convB it, .insB ci],
          .ok (none, { st with statsB := st.statsB.create_new }))) ∧
    (∀ (env : Env) (id_A : ID) (it : Item) (st : SyncState),
      env.converter_to_A it = .error () →
      convert_n_update_to_A env id_A (some it) st = ([.convA it], .ok st)) ∧
    (∀ (env : Env) (id_A : ID) (it ci : Item) (st : SyncState),
      env.converter_to_A it = .ok (some ci) →
      env.updater_to_A id_A ci = .error () →
      convert_n_update_to_A env id_A (some it) st =
        ([.convA it, .updA id_A], .ok { st with statsA := st.statsA.update })) ∧
    (∀ (env : Env) (id_ : ID) (m : Bimap),
      env.deleter_to_A id_ = .error () → delete_n_pop_A env id_ m = m) := by
  refine ⟨fun env rs chA chB st st' h => ?_, fun env id_ st it ci h1 h2 h3 => ?_,
    fun env id_A it st h => ?_, fun env id_A it ci st h1 h2 => ?_,
    fun env id_ m h => ?_⟩
  · have he := evol_sync h
    exact ⟨he.2.2.2.1, he.2.2.2.2.2.2.2⟩
  · simp [convert_n_insert, h1, h2, h3]
  · simp [convert_n_update_to_A, h]
  · simp [convert_n_update_to_A, h1]
  · simp [delete_n_pop_A, h]

/-- Witness for C5 (amended) at the counterexample environment. -/
theorem c5_witness :
    convert_n_insert wEnvInsFail "n1" .B ⟨[], .init, .init⟩ =
      ([.getA "n1", .convB "ia", .insB "ia"],
        .ok (none, ⟨[], .init, TypeStats.init.create_new⟩)) ∧
    delete_n_pop_A
      { wEnvDelOk with deleter_to_A := fun _ => .error () } "a1"
      [("a1", "b1")] = [("a1", "b1")] :=
  ⟨c5_callback_failures.2.1 wEnvInsFail "n1" ⟨[], .init, .init⟩ "ia" "ia"
      rfl rfl rfl,
    c5_callback_failures.2.2.2.2
      { wEnvDelOk with deleter_to_A := fun _ => .error () } "a1"
      [("a1", "b1")] rfl⟩

/-! ### Claim C8 — statistics are *not* reset per run; they accumulate -/

/-- Environment that inserts every (always present) new A item into B under
a fresh B identifier, used for the C8 counterexample. -/
def wEnvNew : Env :=
  { wEnvDelOk with
    item_getter_A := fun i => .ok i
    inserter_to_B := fun it => .ok ("B" ++ it) }

/-- Counterexample to C8 as stated: two successive `sync` calls on the same
instance, each inserting exactly one new A item.  After the first run the
B-side created counter is 1; the second run starts from that state and
ends with created = 2, although the second run performed exactly one
insertion — the counters were not reset at the start of the second call,
so its report does not reflect only that run's operations (the claim
would require created = 1 after the second run). -/
theorem c8_counterexample :
    (sync wEnvNew AlwaysFirstRS.resolve ⟨["n1"], [], []⟩ ⟨[], [], []⟩
        ⟨[], .init, .init⟩).2 =
      .ok ⟨[("n1", "Bn1")], .init, { created_new := 1, updated := 0, deleted := 0, errors := 0 }⟩ ∧
    (sync wEnvNew AlwaysFirstRS.resolve ⟨["n2"], [], []⟩ ⟨[], [], []⟩
        ⟨[("n1", "Bn1")], .init, { created_new := 1, updated := 0, deleted := 0, errors := 0 }⟩).2 =
      .ok ⟨[("n2", "Bn2"), ("n1", "Bn1")], .init,
        { created_new := 2, updated := 0, deleted := 0, errors := 0 }⟩ ∧
    ¬ (sync wEnvNew AlwaysFirstRS.resolve ⟨["n2"], [], []⟩ ⟨[], [], []⟩
        ⟨[("n1", "Bn1")], .init, { created_new := 1, updated := 0, deleted := 0, errors := 0 }⟩).2 =
      .ok ⟨[("n2", "Bn2"), ("n1", "Bn1")], .init,
        { created_new := 1, updated := 0, deleted := 0, errors := 0 }⟩ := by
  refine ⟨by decide, by decide, by decide⟩

/-- C8 (amended): the per-side statistics are created (all zero) once, in
the constructor; `sync` never resets them — across any successful `sync`
call every created/updated/deleted counter is monotonically
non-decreasing and the errors counters are exactly preserved, so counts
accumulate across successive calls on the same instance. -/
theorem c8_stats_accumulate (env : Env) (rs : RS) (chA chB : SideChanges)
    (st st' : SyncState) (h : (sync env rs chA chB st).2 = .ok st') :
    st.statsA.created_new ≤ st'.statsA.created_new ∧
    st.statsA.updated ≤ st'.statsA.updated ∧
    st.statsA.deleted ≤ st'.statsA.deleted ∧
    st'.statsA.errors = st.statsA.errors ∧
    st.statsB.created_new ≤ st'.statsB.created_new ∧
    st.statsB.updated ≤ st'.statsB.updated ∧
    st.statsB.deleted ≤ st'.statsB.deleted ∧
    st'.statsB.errors = st.statsB.errors :=
  evol_sync h

/-- Witness for C8 (amended): the second counterexample run, starting from
created = 1, ends with created = 2 ≥ 1 — the counter accumulated instead
of being reset. -/
theorem c8_witness :
    (⟨[("n1", "Bn1")], .init,
        { created_new := 1, updated := 0, deleted := 0, errors := 0 }⟩ :
      SyncState).statsB.created_new ≤
    (⟨[("n2", "Bn2"), ("n1", "Bn1")], .init,
        { created_new := 2, updated := 0, deleted := 0, errors := 0 }⟩ :
      SyncState).statsB.created_new :=
  (c8_stats_accumulate wEnvNew AlwaysFirstRS.resolve
    ⟨["n2"], [], []⟩ ⟨[], [], []⟩
    ⟨[("n1", "Bn1")], .init,
      { created_new := 1, updated := 0, deleted := 0, errors := 0 }⟩
    ⟨[("n2", "Bn2"), ("n1", "Bn1")], .init,
      { created_new := 2, updated := 0, deleted := 0, errors := 0 }⟩
    (by decide)).2.2.2.2.1

/-! ### Claim C3 — conflict resolution when the winning side's item is
absent -/

/-- The item view of a raw getter outcome: the returned item, or `none`
for a `KeyError` (the "already deleted" case). -/
def rawToOpt : RawGet → Option Item
  | .ok it => some it
  | .keyErr => none
  | .otherExc => none

/-- C3: In conflict resolution, when the winning side's item is absent and
the losing side's change set already records the corresponding identifier
as deleted, the engine only removes the pair from the correspondence map
(no delete callback runs on either side — the trace holds exactly the two
getter calls and the resolution call, and the statistics are untouched);
when the losing side's change set does not record it as deleted, the
engine calls the losing side's deleter and increments that side's deleted
statistic.  Both winner orientations are covered. -/
theorem c3_absent_winner (env : Env) (rs : RS) (chA chB : SideChanges)
    (a b : ID) (st : SyncState) (hlook : lookupB st.a2b b = some a) :
    (env.item_getter_A a = .keyErr →
      env.item_getter_B b ≠ .otherExc →
      (rs none (rawToOpt (env.item_getter_B b))).result_id = RID.A →
      ((b ∈ chB.deleted →
        conflict_step env rs chA chB b st =
          ([.getB b, .getA a, .res a b],
            .ok { st with a2b := eraseB st.a2b b }) ∧
        lookupB (eraseB st.a2b b) b = none) ∧
      (b ∉ chB.deleted →
        conflict_step env rs chA chB b st =
          ([.getB b, .getA a, .res a b, .delB b],
            .ok { st with a2b := delete_n_pop_B env b st.a2b, statsB := st.statsB.delete })))) ∧
    (env.item_getter_B b = .keyErr →
      env.item_getter_A a ≠ .otherExc →
      (rs (rawToOpt (env.item_getter_A a)) none).result_id = RID.B →
      ((a ∈ chA.deleted →
        conflict_step env rs chA chB b st =
          ([.getB b, .getA a, .res a b],
            .ok { st with a2b := eraseA st.a2b a }) ∧
        lookupA (eraseA st.a2b a) a = none) ∧
      (a ∉ chA.deleted →
        conflict_step env rs chA chB b st =
          ([.getB b, .getA a, .res a b, .delA a],
            .ok { st with a2b := delete_n_pop_A env a st.a2b, statsA := st.statsA.delete })))) := by
  constructor
  · intro hga hgb hwin
    have hlknone : lookupB (eraseB st.a2b b) b = none := by
      rw [lookupB_eq_none]
      intro p hp
      exact (mem_eraseB.1 hp).2
    cases hgB : env.item_getter_B b with
    | otherExc => exact absurd hgB hgb
    | ok itB =>
      rw [hgB] at hwin
      simp only [rawToOpt] at hwin
      refine ⟨fun hdel => ⟨?_, hlknone⟩, fun hdel => ?_⟩ <;>
        simp [conflict_step, hlook, item_getter_handle_exc, hgB, hga, hwin,
          hdel, popB]
    | keyErr =>
      rw [hgB] at hwin
      simp only [rawToOpt] at hwin
      refine ⟨fun hdel => ⟨?_, hlknone⟩, fun hdel => ?_⟩ <;>
        simp [conflict_step, hlook, item_getter_handle_exc, hgB, hga, hwin,
          hdel, popB]
  · intro hgb hga hwin
    have hlknone : lookupA (eraseA st.a2b a) a = none := by
      rw [lookupA_eq_none]
      intro p hp
      exact (mem_eraseA.1 hp).2
    have hlkA : (lookupA st.a2b a).isSome := by
      have := lookupB_mem hlook
      cases hA : lookupA st.a2b a with
      | some x => rfl
      | none =>
        rw [lookupA_eq_none] at hA
        exact absurd rfl (hA (a, b) this)
    cases hgA : env.item_getter_A a with
    | otherExc => exact absurd hgA hga
    | ok itA =>
      rw [hgA] at hwin
      simp only [rawToOpt] at hwin
      refine ⟨fun hdel => ⟨?_, hlknone⟩, fun hdel => ?_⟩ <;>
        simp [conflict_step, hlook, item_getter_handle_exc, hgA, hgb, hwin,
          hdel, popA, hlkA]
    | keyErr =>
      rw [hgA] at hwin
      simp only [rawToOpt] at hwin
      refine ⟨fun hdel => ⟨?_, hlknone⟩, fun hdel => ?_⟩ <;>
        simp [conflict_step, hlook, item_getter_handle_exc, hgA, hgb, hwin,
          hdel, popA, hlkA]

/-- Witness for C3: on the one-pair map with both items deleted
(`KeyError` getters) and `AlwaysFirstRS`, the double-deletion branch only
pops the mapping; with B's change set not recording the deletion, the
deleter branch runs. -/
theorem c3_witness :
    (conflict_step wEnvDelOk AlwaysFirstRS.resolve ⟨[], [], ["a1"]⟩
        ⟨[], [], ["b1"]⟩ "b1" ⟨[("a1", "b1")], .init, .init⟩ =
      ([.getB "b1", .getA "a1", .res "a1" "b1"],
        .ok ⟨[], .init, .init⟩)) ∧
    (conflict_step wEnvDelOk AlwaysFirstRS.resolve ⟨[], [], ["a1"]⟩
        ⟨[], ["b1"], []⟩ "b1" ⟨[("a1", "b1")], .init, .init⟩ =
      ([.getB "b1", .getA "a1", .res "a1" "b1", .delB "b1"],
        .ok ⟨[], .init, TypeStats.init.delete⟩)) := by
  constructor
  · have h := c3_absent_winner wEnvDelOk AlwaysFirstRS.resolve
      ⟨[], [], ["a1"]⟩ ⟨[], [], ["b1"]⟩ "a1" "b1"
      ⟨[("a1", "b1")], .init, .init⟩ (by decide)
    have h1 := (h.1 (by decide) (by decide) (by decide)).1 (by decide)
    rw [h1.1]
    decide
  · have h := c3_absent_winner wEnvDelOk AlwaysFirstRS.resolve
      ⟨[], [], ["a1"]⟩ ⟨[], ["b1"], []⟩ "a1" "b1"
      ⟨[("a1", "b1")], .init, .init⟩ (by decide)
    have h2 := (h.1 (by decide) (by decide) (by decide)).2 (by decide)
    rw [h2]
    decide

/-! ### Claim C9 — a non-conflicting modified identifier whose item is gone
trips the `assert` and aborts the run -/

/-- C9: For a non-conflicting identifier classified as modified on side B
whose own getter reports the item absent (`KeyError`), `_sync` raises the
`assert item is not None` failure inside `_convert_n_update_to_A` and
aborts the run: `syncCore` (phases 2–4 of `_sync`) returns the assertion
error right after that getter call, with no further identifiers
processed.  The hypotheses fix the intermediate results of conflict
classification (`mapKeys…`), the conflict loop, and the non-conflict
prefix `l1` processed before `b`. -/
theorem c9_modified_absent_asserts (env : Env) (rs : RS)
    (chA chB : SideChanges) (st st2 st3 : SyncState)
    (tBinA tAinB : List ID) (tr2 tr3a : List Ev) (l1 l2 : List ID)
    (a b : ID)
    (h2 : mapKeysBtoA st.a2b (touched_from_B chB) = .ok tBinA)
    (h3 : mapKeysAtoB st.a2b (touched_from_A chA) = .ok tAinB)
    (hconf : conflict_loop env rs chA chB
      ((touched_from_B chB).filter (fun b => decide (b ∈ tAinB))) st =
      (tr2, .ok st2))
    (hsplit : (touched_from_B chB).filter (fun b => decide (b ∉ tAinB)) =
      l1 ++ b :: l2)
    (hloop1 : non_conflict_B_loop env chB l1 st2 = (tr3a, .ok st3))
    (hmod : b ∈ chB.modified)
    (hget : env.item_getter_B b = .keyErr)
    (hlookb : lookupB st3.a2b b = some a) :
    syncCore env rs chA chB st =
      (tr2 ++ (tr3a ++ [Ev.getB b]), .error .assertionFailed) := by
  have hstep : non_conflict_B_step env chB b st3 =
      ([Ev.getB b], .error .assertionFailed) := by
    simp [non_conflict_B_step, hlookb, hmod, item_getter_handle_exc, hget,
      convert_n_update_to_A]
  have hloop : non_conflict_B_loop env chB (l1 ++ b :: l2) st2 =
      (tr3a ++ [Ev.getB b], .error .assertionFailed) := by
    rw [non_conflict_B_loop_append hloop1]
    simp [non_conflict_B_loop, hstep]
  simp only [syncCore, h2, h3, hconf, hsplit, hloop]

/-- Witness for C9: one mapped pair, `b1` modified on B but already gone
from B's store — `syncCore` aborts with the assertion failure. -/
theorem c9_witness :
    syncCore wEnvDelOk AlwaysFirstRS.resolve ⟨[], [], []⟩ ⟨[], ["b1"], []⟩
        ⟨[("a1", "b1")], .init, .init⟩ =
      ([] ++ ([] ++ [Ev.getB "b1"]), .error .assertionFailed) :=
  c9_modified_absent_asserts wEnvDelOk AlwaysFirstRS.resolve
    ⟨[], [], []⟩ ⟨[], ["b1"], []⟩
    ⟨[("a1", "b1")], .init, .init⟩ ⟨[("a1", "b1")], .init, .init⟩
    ⟨[("a1", "b1")], .init, .init⟩
    ["a1"] [] [] [] [] [] "a1" "b1"
    (by decide) (by decide) (by decide) (by decide) (by decide)
    (by decide) (by decide) (by decide)

/-! ### Claim C6 — a `Mix` resolution result aborts the run -/

/-- C6: If the resolution strategy returns a `Mix` result for a conflicting
pair, `sync` aborts immediately: the run's result is the
`mixUnsupported` error (the `RuntimeError` propagates to the caller), and
the trace ends with that pair's two getter calls and the single
resolution call — no further conflicting or non-conflicting identifier is
processed.  The hypotheses fix phase 1's successful outcome, the conflict
classification, and the successfully processed conflict prefix `l1`. -/
theorem c6_mix_aborts (env : Env) (rs : RS) (chA chB : SideChanges)
    (st0 st st1 : SyncState) (tBinA tAinB : List ID) (tr1 tr2a : List Ev)
    (l1 l2 : List ID) (a b : ID)
    (h1 : sync_new_items env chA chB st0 = (tr1, .ok st))
    (h2 : mapKeysBtoA st.a2b (touched_from_B chB) = .ok tBinA)
    (h3 : mapKeysAtoB st.a2b (touched_from_A chA) = .ok tAinB)
    (hsplit : (touched_from_B chB).filter (fun b => decide (b ∈ tAinB)) =
      l1 ++ b :: l2)
    (hl1 : conflict_loop env rs chA chB l1 st = (tr2a, .ok st1))
    (hlookb : lookupB st1.a2b b = some a)
    (hgb : env.item_getter_B b ≠ .otherExc)
    (hga : env.item_getter_A a ≠ .otherExc)
    (hmix : (rs (rawToOpt (env.item_getter_A a))
        (rawToOpt (env.item_getter_B b))).result_id = RID.Mix) :
    sync env rs chA chB st0 =
      (tr1 ++ (tr2a ++ [Ev.getB b, Ev.getA a, Ev.res a b]),
        .error .mixUnsupported) := by
  have hstep : conflict_step env rs chA chB b st1 =
      ([Ev.getB b, Ev.getA a, Ev.res a b], .error .mixUnsupported) := by
    cases hB : env.item_getter_B b with
    | otherExc => exact absurd hB hgb
    | ok itB =>
      cases hA : env.item_getter_A a with
      | otherExc => exact absurd hA hga
      | ok itA =>
        rw [hB, hA] at hmix
        simp only [rawToOpt] at hmix
        simp [conflict_step, hlookb, item_getter_handle_exc, hB, hA, hmix]
      | keyErr =>
        rw [hB, hA] at hmix
        simp only [rawToOpt] at hmix
        simp [conflict_step, hlookb, item_getter_handle_exc, hB, hA, hmix]
    | keyErr =>
      cases hA : env.item_getter_A a with
      | otherExc => exact absurd hA hga
      | ok itA =>
        rw [hB, hA] at hmix
        simp only [rawToOpt] at hmix
        simp [conflict_step, hlookb, item_getter_handle_exc, hB, hA, hmix]
      | keyErr =>
        rw [hB, hA] at hmix
        simp only [rawToOpt] at hmix
        simp [conflict_step, hlookb, item_getter_handle_exc, hB, hA, hmix]
  have hloopc : conflict_loop env rs chA chB (l1 ++ b :: l2) st =
      (tr2a ++ [Ev.getB b, Ev.getA a, Ev.res a b], .error .mixUnsupported) := by
    rw [conflict_loop_append hl1]
    simp [conflict_loop, hstep]
  have hcore : syncCore env rs chA chB st =
      (tr2a ++ [Ev.getB b, Ev.getA a, Ev.res a b], .error .mixUnsupported) := by
    simp only [syncCore, h2, h3, hsplit, hloopc]
  simp only [sync, h1, hcore]

/-- A resolution strategy that always returns the unsupported `Mix`
outcome, used as a witness input. -/
def rsMixW : RS := fun _ _ => ⟨.Mix, none⟩

/-- Witness for C6: one conflicting pair (deleted on both sides) under the
always-`Mix` strategy — `sync` returns the fatal error right after the
single resolution call. -/
theorem c6_witness :
    sync wEnvDelOk rsMixW ⟨[], [], ["a1"]⟩ ⟨[], [], ["b1"]⟩
        ⟨[("a1", "b1")], .init, .init⟩ =
      ([] ++ ([] ++ [Ev.getB "b1", Ev.getA "a1", Ev.res "a1" "b1"]),
        .error .mixUnsupported) :=
  c6_mix_aborts wEnvDelOk rsMixW ⟨[], [], ["a1"]⟩ ⟨[], [], ["b1"]⟩
    ⟨[("a1", "b1")], .init, .init⟩ ⟨[("a1", "b1")], .init, .init⟩
    ⟨[("a1", "b1")], .init, .init⟩
    ["a1"] ["b1"] [] [] [] [] "a1" "b1"
    (by decide) (by decide) (by decide) (by decide) (by decide)
    (by decide) (by decide) (by decide) (by decide)

/-! ### Claim C2 — new-item propagation: growth of the correspondence map -/

/-- A successful bidict assignment is a cons on top of the key-erased map,
and certifies that no other key owned the value. -/
theorem setAB_ok {m m2 : Bimap} {a b : ID} (h : setAB m a b = .ok m2) :
    m2 = (a, b) :: eraseA m a := by
  simp only [setAB] at h
  split at h
  · exact Except.noConfusion h
  · injection h with h
    exact h.symm

/-- Mirror of `setAB_ok` for the inverse-view assignment. -/
theorem setBA_ok {m m2 : Bimap} {a b : ID} (h : setBA m b a = .ok m2) :
    m2 = (a, b) :: eraseB m b := by
  simp only [setBA] at h
  split at h
  · exact Except.noConfusion h
  · injection h with h
    exact h.symm

/-- Effect of the `_sync_new_items` loop over side A's `new` list when
every getter finds its item (`gi`), every conversion yields an item
(`cv`), and every insertion succeeds with a fresh B identifier (`nv`
injective on the list, avoiding existing B keys), the ids themselves
being fresh A keys: the loop succeeds, the map gains exactly the pairs
`(a, nv a)`, and B's created counter grows by the number of ids. -/
theorem sync_new_loop_B_spec (env : Env) (gi cv : ID → Item)
    (nv : ID → ID) :
    ∀ (ids : List ID) (st : SyncState),
      (∀ a ∈ ids, env.item_getter_A a = .ok (gi a)) →
      (∀ a ∈ ids, env.converter_to_B (gi a) = .ok (some (cv a))) →
      (∀ a ∈ ids, env.inserter_to_B (cv a) = .ok (nv a)) →
      (∀ a ∈ ids, nv a ∉ keysB st.a2b) →
      (ids.map nv).Nodup →
      (∀ a ∈ ids, a ∉ keysA st.a2b) →
      ids.Nodup →
      ∃ st' : SyncState,
        (sync_new_loop env .B ids st).2 = .ok st' ∧
        st'.a2b = (ids.map (fun a => (a, nv a))).reverse ++ st.a2b ∧
        st'.statsB.created_new = st.statsB.created_new + ids.length ∧
        st'.statsB.updated = st.statsB.updated ∧
        st'.statsB.deleted = st.statsB.deleted ∧
        st'.statsB.errors = st.statsB.errors ∧
        st'.statsA = st.statsA
  | [], st, hg, hc, hi, hfv, hnv, hfk, hnd =>
    ⟨st, rfl, by simp, by simp, rfl, rfl, rfl, rfl⟩
  | a :: rest, st, hg, hc, hi, hfv, hnv, hfk, hnd => by
    have hga := hg a (List.mem_cons_self a rest)
    have hca := hc a (List.mem_cons_self a rest)
    have hia := hi a (List.mem_cons_self a rest)
    have hstep : convert_n_insert env a .B st =
        ([.getA a, .convB (gi a), .insB (cv a)],
          .ok (some (nv a), { st with statsB := st.statsB.create_new })) := by
      simp [convert_n_insert, hga, hca, hia]
    have hset : setAB st.a2b a (nv a) = .ok ((a, nv a) :: st.a2b) := by
      have hany : ¬ st.a2b.any (fun p => p.2 == nv a && p.1 != a) = true := by
        simp only [List.any_eq_true, not_exists]
        rintro p ⟨hp, hpv⟩
        simp only [Bool.and_eq_true, beq_iff_eq, bne_iff_ne] at hpv
        exact hfv a (List.mem_cons_self a rest) (hpv.1 ▸ mem_keysB hp)
      have herase : eraseA st.a2b a = st.a2b :=
        eraseA_eq_self (hfk a (List.mem_cons_self a rest))
      simp [setAB, hany, herase]
    have hnva : nv a ∉ (rest.map nv) := by
      simp only [List.map_cons, List.nodup_cons] at hnv
      exact hnv.1
    have hnda : a ∉ rest := by
      simp only [List.nodup_cons] at hnd
      exact hnd.1
    obtain ⟨st', hok, hmap, hcre, hupd, hdel, herr, hsa⟩ :=
      sync_new_loop_B_spec env gi cv nv rest
        ⟨(a, nv a) :: st.a2b, st.statsA, st.statsB.create_new⟩
        (fun x hx => hg x (List.mem_cons_of_mem a hx))
        (fun x hx => hc x (List.mem_cons_of_mem a hx))
        (fun x hx => hi x (List.mem_cons_of_mem a hx))
        (fun x hx hmem => by
          simp only [keysB, List.map_cons, List.mem_cons] at hmem
          rcases hmem with hh | hh
          · exact hnva (hh ▸ List.mem_map_of_mem nv hx)
          · exact hfv x (List.mem_cons_of_mem a hx) hh)
        (by
          simp only [List.map_cons, List.nodup_cons] at hnv
          exact hnv.2)
        (fun x hx hmem => by
          simp only [keysA, List.map_cons, List.mem_cons] at hmem
          rcases hmem with hh | hh
          · exact hnda (hh ▸ hx)
          · exact hfk x (List.mem_cons_of_mem a hx) hh)
        (by
          simp only [List.nodup_cons] at hnd
          exact hnd.2)
    refine ⟨st', ?_, ?_, ?_, ?_, ?_, ?_, ?_⟩
    · simp only [sync_new_loop, hstep, hset]
      exact hok
    · rw [hmap]
      simp
    · rw [hcre]
      simp only [TypeStats.create_new, List.length_cons]
      omega
    · rw [hupd]
      rfl
    · rw [hdel]
      rfl
    · rw [herr]
      rfl
    · rw [hsa]

/-- Mirror of `sync_new_loop_B_spec` for side B's `new` list, inserted
into side A via the inverse view. -/
theorem sync_new_loop_A_spec (env : Env) (gi cv : ID → Item)
    (nv : ID → ID) :
    ∀ (ids : List ID) (st : SyncState),
      (∀ b ∈ ids, env.item_getter_B b = .ok (gi b)) →
      (∀ b ∈ ids, env.converter_to_A (gi b) = .ok (some (cv b))) →
      (∀ b ∈ ids, env.inserter_to_A (cv b) = .ok (nv b)) →
      (∀ b ∈ ids, nv b ∉ keysA st.a2b) →
      (ids.map nv).Nodup →
      (∀ b ∈ ids, b ∉ keysB st.a2b) →
      ids.Nodup →
      ∃ st' : SyncState,
        (sync_new_loop env .A ids st).2 = .ok st' ∧
        st'.a2b = (ids.map (fun b => (nv b, b))).reverse ++ st.a2b ∧
        st'.statsA.created_new = st.statsA.created_new + ids.length ∧
        st'.statsA.updated = st.statsA.updated ∧
        st'.statsA.deleted = st.statsA.deleted ∧
        st'.statsA.errors = st.statsA.errors ∧
        st'.statsB = st.statsB
  | [], st, hg, hc, hi, hfv, hnv, hfk, hnd =>
    ⟨st, rfl, by simp, by simp, rfl, rfl, rfl, rfl⟩
  | b :: rest, st, hg, hc, hi, hfv, hnv, hfk, hnd => by
    have hgb := hg b (List.mem_cons_self b rest)
    have hcb := hc b (List.mem_cons_self b rest)
    have hib := hi b (List.mem_cons_self b rest)
    have hstep : convert_n_insert env b .A st =
        ([.getB b, .convA (gi b), .insA (cv b)],
          .ok (some (nv b), { st with statsA := st.statsA.create_new })) := by
      simp [convert_n_insert, hgb, hcb, hib]
    have hset : setBA st.a2b b (nv b) = .ok ((nv b, b) :: st.a2b) := by
      have hany : ¬ st.a2b.any (fun p => p.1 == nv b && p.2 != b) = true := by
        simp only [List.any_eq_true, not_exists]
        rintro p ⟨hp, hpv⟩
        simp only [Bool.and_eq_true, beq_iff_eq, bne_iff_ne] at hpv
        exact hfv b (List.mem_cons_self b rest) (hpv.1 ▸ mem_keysA hp)
      have herase : eraseB st.a2b b = st.a2b :=
        eraseB_eq_self (hfk b (List.mem_cons_self b rest))
      simp [setBA, hany, herase]
    have hnvb : nv b ∉ (rest.map nv) := by
      simp only [List.map_cons, List.nodup_cons] at hnv
      exact hnv.1
    have hndb : b ∉ rest := by
      simp only [List.nodup_cons] at hnd
      exact hnd.1
    obtain ⟨st', hok, hmap, hcre, hupd, hdel, herr, hsb⟩ :=
      sync_new_loop_A_spec env gi cv nv rest
        ⟨(nv b, b) :: st.a2b, st.statsA.create_new, st.statsB⟩
        (fun x hx => hg x (List.mem_cons_of_mem b hx))
        (fun x hx => hc x (List.mem_cons_of_mem b hx))
        (fun x hx => hi x (List.mem_cons_of_mem b hx))
        (fun x hx hmem => by
          simp only [keysA, List.map_cons, List.mem_cons] at hmem
          rcases hmem with hh | hh
          · exact hnvb (hh ▸ List.mem_map_of_mem nv hx)
          · exact hfv x (List.mem_cons_of_mem b hx) hh)
        (by
          simp only [List.map_cons, List.nodup_cons] at hnv
          exact hnv.2)
        (fun x hx hmem => by
          simp only [keysB, List.map_cons, List.mem_cons] at hmem
          rcases hmem with hh | hh
          · exact hndb (hh ▸ hx)
          · exact hfk x (List.mem_cons_of_mem b hx) hh)
        (by
          simp only [List.nodup_cons] at hnd
          exact hnd.2)
    refine ⟨st', ?_, ?_, ?_, ?_, ?_, ?_, ?_⟩
    · simp only [sync_new_loop, hstep, hset]
      exact hok
    · rw [hmap]
      simp
    · rw [hcre]
      simp only [TypeStats.create_new, List.length_cons]
      omega
    · rw [hupd]
      rfl
    · rw [hdel]
      rfl
    · rw [herr]
      rfl
    · rw [hsb]

/-- C2: For every identifier in one side's `new` list, the engine fetches
the item from that same side's own getter; if the getter reports the item
absent (`KeyError`), or the converter declines, the identifier is skipped
— no correspondence-map entry is created and no statistic moves — and the
loop continues with the remaining identifiers (parts 1 and 2, stated for
side A's list; `_convert_n_insert` is side-symmetric).  Otherwise the
converted item is inserted into the opposite side, the pair
(original id → new opposite-side id) is recorded in the map, and the
opposite side's created counter is incremented (part 3).  Consequently,
with always-present getters, always-converting converters, and inserters
that succeed with fresh distinct identifiers, the map grows by exactly
`|A.new| + |B.new|` entries and each side's created counter by the other
side's `new` count (part 4). -/
theorem c2_new_item_propagation :
    (∀ (env : Env) (id_ : ID) (rest : List ID) (st : SyncState),
      env.item_getter_A id_ = .keyErr →
      sync_new_loop env .B (id_ :: rest) st =
        (Ev.getA id_ :: (sync_new_loop env .B rest st).1,
          (sync_new_loop env .B rest st).2)) ∧
    (∀ (env : Env) (id_ : ID) (rest : List ID) (st : SyncState) (it : Item),
      env.item_getter_A id_ = .ok it →
      env.converter_to_B it = .ok none →
      sync_new_loop env .B (id_ :: rest) st =
        ([Ev.getA id_, Ev.convB it] ++ (sync_new_loop env .B rest st).1,
          (sync_new_loop env .B rest st).2)) ∧
    (∀ (env : Env) (id_ : ID) (rest : List ID) (st : SyncState)
        (it ci : Item) (nid : ID) (m2 : Bimap),
      env.item_getter_A id_ = .ok it →
      env.converter_to_B it = .ok (some ci) →
      env.inserter_to_B ci = .ok nid →
      setAB st.a2b id_ nid = .ok m2 →
      sync_new_loop env .B (id_ :: rest) st =
        ([Ev.getA id_, Ev.convB it, Ev.insB ci] ++
            (sync_new_loop env .B rest ⟨m2, st.statsA, st.statsB.create_new⟩).1,
          (sync_new_loop env .B rest ⟨m2, st.statsA, st.statsB.create_new⟩).2) ∧
      lookupA m2 id_ = some nid) ∧
    (∀ (env : Env) (chA chB : SideChanges) (st : SyncState)
        (gi cv gi2 cv2 : ID → Item) (nv nv2 : ID → ID),
      (∀ a ∈ chA.new, env.item_getter_A a = .ok (gi a)) →
      (∀ a ∈ chA.new, env.converter_to_B (gi a) = .ok (some (cv a))) →
      (∀ a ∈ chA.new, env.inserter_to_B (cv a) = .ok (nv a)) →
      (∀ a ∈ chA.new, nv a ∉ keysB st.a2b) →
      (chA.new.map nv).Nodup →
      (∀ a ∈ chA.new, a ∉ keysA st.a2b) →
      chA.new.Nodup →
      (∀ b ∈ chB.new, env.item_getter_B b = .ok (gi2 b)) →
      (∀ b ∈ chB.new, env.converter_to_A (gi2 b) = .ok (some (cv2 b))) →
      (∀ b ∈ chB.new, env.inserter_to_A (cv2 b) = .ok (nv2 b)) →
      (∀ b ∈ chB.new, nv2 b ∉ keysA st.a2b ∧ nv2 b ∉ chA.new) →
      (chB.new.map nv2).Nodup →
      (∀ b ∈ chB.new, b ∉ keysB st.a2b ∧ b ∉ chA.new.map nv) →
      chB.new.Nodup →
      ∃ st2 : SyncState,
        (sync_new_items env chA chB st).2 = .ok st2 ∧
        st2.a2b.length = st.a2b.length + chA.new.length + chB.new.length ∧
        st2.statsB.created_new = st.statsB.created_new + chA.new.length ∧
        st2.statsA.created_new = st.statsA.created_new + chB.new.length) := by
  refine ⟨?_, ?_, ?_, ?_⟩
  · intro env id_ rest st hk
    have hstep : convert_n_insert env id_ .B st = ([Ev.getA id_], .ok (none, st)) := by
      simp [convert_n_insert, hk]
    simp [sync_new_loop, hstep]
  · intro env id_ rest st it hg hc
    have hstep : convert_n_insert env id_ .B st =
        ([Ev.getA id_, Ev.convB it], .ok (none, st)) := by
      simp [convert_n_insert, hg, hc]
    simp [sync_new_loop, hstep]
  · intro env id_ rest st it ci nid m2 hg hc hi hset
    have hstep : convert_n_insert env id_ .B st =
        ([Ev.getA id_, Ev.convB it, Ev.insB ci],
          .ok (some nid, { st with statsB := st.statsB.create_new })) := by
      simp [convert_n_insert, hg, hc, hi]
    constructor
    · simp [sync_new_loop, hstep, hset]
    · rw [setAB_ok hset, lookupA_cons]
      simp
  · intro env chA chB st gi cv gi2 cv2 nv nv2
      hgA hcA hiA hfvA hnvA hfkA hndA hgB hcB hiB hfvB hnvB hfkB hndB
    obtain ⟨st1, hok1, hmap1, hcre1, hupd1, hdel1, herr1, hsa1⟩ :=
      sync_new_loop_B_spec env gi cv nv chA.new st hgA hcA hiA hfvA hnvA hfkA hndA
    have hkA1 : keysA st1.a2b = chA.new.reverse ++ keysA st.a2b := by
      rw [hmap1]
      simp only [keysA, List.map_append, List.map_reverse, List.map_map]
      rw [show ((fun p : ID × ID => p.1) ∘ fun a : ID => (a, nv a)) = fun a : ID => a
        from rfl, List.map_id']
    have hkB1 : keysB st1.a2b = (chA.new.map nv).reverse ++ keysB st.a2b := by
      rw [hmap1]
      simp only [keysB, List.map_append, List.map_reverse, List.map_map]
      rw [show ((fun p : ID × ID => p.2) ∘ fun a : ID => (a, nv a)) = nv from rfl]
    obtain ⟨st2, hok2, hmap2, hcre2, hupd2, hdel2, herr2, hsb2⟩ :=
      sync_new_loop_A_spec env gi2 cv2 nv2 chB.new st1 hgB hcB hiB
        (fun b hb => by
          rw [hkA1]
          simp only [List.mem_append, List.mem_reverse]
          rintro (h | h)
          · exact (hfvB b hb).2 h
          · exact (hfvB b hb).1 h)
        hnvB
        (fun b hb => by
          rw [hkB1]
          simp only [List.mem_append, List.mem_reverse]
          rintro (h | h)
          · exact (hfkB b hb).2 h
          · exact (hfkB b hb).1 h)
        hndB
    refine ⟨st2, ?_, ?_, ?_, ?_⟩
    · simp only [sync_new_items, hok1]
      exact hok2
    · rw [hmap2, hmap1]
      simp only [List.length_append, List.length_reverse, List.length_map]
      omega
    · rw [hsb2, hcre1]
    · rw [hcre2, hsa1]

/-- Environment for the C2 witness: items always present, converters pass
items through, inserters succeed with a prefixed fresh identifier. -/
def wEnvNew2 : Env where
  item_getter_A := fun i => .ok i
  item_getter_B := fun i => .ok i
  converter_to_A := fun it => .ok (some it)
  converter_to_B := fun it => .ok (some it)
  inserter_to_A := fun it => .ok ("A" ++ it)
  inserter_to_B := fun it => .ok ("B" ++ it)
  updater_to_A := fun _ _ => .ok ()
  updater_to_B := fun _ _ => .ok ()
  deleter_to_A := fun _ => .ok ()
  deleter_to_B := fun _ => .ok ()

/-- Witness for C2: the successful head step on an empty map records the
pair and the loop continues from the extended state. -/
theorem c2_witness :
    sync_new_loop wEnvNew2 .B ["a1"] ⟨[], .init, .init⟩ =
      ([Ev.getA "a1", Ev.convB "a1", Ev.insB "a1"] ++
          (sync_new_loop wEnvNew2 .B []
            ⟨[("a1", "Ba1")], .init, TypeStats.init.create_new⟩).1,
        (sync_new_loop wEnvNew2 .B []
          ⟨[("a1", "Ba1")], .init, TypeStats.init.create_new⟩).2) ∧
    lookupA [("a1", "Ba1")] "a1" = some "Ba1" :=
  c2_new_item_propagation.2.2.1 wEnvNew2 "a1" [] ⟨[], .init, .init⟩
    "a1" "a1" "Ba1" [("a1", "Ba1")] rfl rfl rfl (by decide)

/-! ### Claim C1 — conflict classification and the non-conflict loops -/

/-- Events of `_convert_n_update_to_A` are conversions and one update of
the given A identifier. -/
theorem cnuA_events {env : Env} {id_A : ID} {item : Option Item}
    {st : SyncState} :
    ∀ ev ∈ (convert_n_update_to_A env id_A item st).1,
      (∃ it, ev = Ev.convA it) ∨ ev = Ev.updA id_A := by
  intro ev hev
  simp only [convert_n_update_to_A] at hev
  split at hev
  · simp at hev
  · split at hev <;> simp at hev <;>
      first
        | exact Or.inl ⟨_, hev⟩
        | (rcases hev with hev | hev
           · exact Or.inl ⟨_, hev⟩
           · exact Or.inr hev)

/-- Events of `_convert_n_update_to_B` are conversions and one update of
the given B identifier. -/
theorem cnuB_events {env : Env} {id_B : ID} {item : Option Item}
    {st : SyncState} :
    ∀ ev ∈ (convert_n_update_to_B env id_B item st).1,
      (∃ it, ev = Ev.convB it) ∨ ev = Ev.updB id_B := by
  intro ev hev
  simp only [convert_n_update_to_B] at hev
  split at hev
  · simp at hev
  · split at hev <;> simp at hev <;>
      first
        | exact Or.inl ⟨_, hev⟩
        | (rcases hev with hev | hev
           · exact Or.inl ⟨_, hev⟩
           · exact Or.inr hev)

/-- Every event of one `not_conflicts_from_B` step is a B getter on the
processed id, an A conversion, or an A-side update/delete whose target is
the processed id's A correspondent in the current map. -/
theorem ncB_step_events {env : Env} {chB : SideChanges} {i : ID}
    {st : SyncState} :
    ∀ ev ∈ (non_conflict_B_step env chB i st).1,
      ev = Ev.getB i ∨ (∃ it, ev = Ev.convA it) ∨
      (∃ x, (x, i) ∈ st.a2b ∧ (ev = Ev.updA x ∨ ev = Ev.delA x)) := by
  intro ev hev
  simp only [non_conflict_B_step] at hev
  split at hev
  · simp at hev
  next id_A heqB =>
    have hmem : (id_A, i) ∈ st.a2b := lookupB_mem heqB
    split at hev
    · split at hev
      · simp at hev
        exact Or.inl hev
      next item_B heqg =>
        simp only [List.mem_cons] at hev
        rcases hev with rfl | hev
        · exact Or.inl rfl
        · rcases cnuA_events ev hev with ⟨it, rfl⟩ | rfl
          · exact Or.inr (Or.inl ⟨it, rfl⟩)
          · exact Or.inr (Or.inr ⟨id_A, hmem, Or.inl rfl⟩)
    · split at hev
      · simp at hev
        exact Or.inr (Or.inr ⟨id_A, hmem, Or.inr hev⟩)
      · simp at hev

/-- Loop version of `ncB_step_events`: targets come from ids in the list
and pairs of the loop's *initial* map. -/
theorem ncB_loop_events {env : Env} {chB : SideChanges} :
    ∀ {l : List ID} {st : SyncState},
      ∀ ev ∈ (non_conflict_B_loop env chB l st).1,
        (∃ i, i ∈ l ∧ ev = Ev.getB i) ∨ (∃ it, ev = Ev.convA it) ∨
        (∃ x i, i ∈ l ∧ (x, i) ∈ st.a2b ∧ (ev = Ev.updA x ∨ ev = Ev.delA x))
  | [], st, ev, hev => by simp [non_conflict_B_loop] at hev
  | b :: rest, st, ev, hev => by
    simp only [non_conflict_B_loop] at hev
    split at hev
    next e heq =>
      rcases ncB_step_events ev hev with h | h | ⟨x, hx, hor⟩
      · exact Or.inl ⟨b, List.mem_cons_self b rest, h⟩
      · exact Or.inr (Or.inl h)
      · exact Or.inr (Or.inr ⟨x, b, List.mem_cons_self b rest, hx, hor⟩)
    next st1 heq =>
      simp only [List.mem_append] at hev
      rcases hev with hev | hev
      · rcases ncB_step_events ev hev with h | h | ⟨x, hx, hor⟩
        · exact Or.inl ⟨b, List.mem_cons_self b rest, h⟩
        · exact Or.inr (Or.inl h)
        · exact Or.inr (Or.inr ⟨x, b, List.mem_cons_self b rest, hx, hor⟩)
      · rcases ncB_loop_events ev hev with ⟨i, hi, h⟩ | h | ⟨x, i, hi, hx, hor⟩
        · exact Or.inl ⟨i, List.mem_cons_of_mem b hi, h⟩
        · exact Or.inr (Or.inl h)
        · exact Or.inr (Or.inr ⟨x, i, List.mem_cons_of_mem b hi,
            (sub_non_conflict_B_step heq).subset hx, hor⟩)

/-- Mirror of `ncB_step_events` for the `not_conflicts_from_A` loop. -/
theorem ncA_step_events {env : Env} {chA : SideChanges} {i : ID}
    {st : SyncState} :
    ∀ ev ∈ (non_conflict_A_step env chA i st).1,
      ev = Ev.getA i ∨ (∃ it, ev = Ev.convB it) ∨
      (∃ x, (i, x) ∈ st.a2b ∧ (ev = Ev.updB x ∨ ev = Ev.delB x)) := by
  intro ev hev
  simp only [non_conflict_A_step] at hev
  split at hev
  · simp at hev
  next id_B heqA =>
    have hmem : (i, id_B) ∈ st.a2b := lookupA_mem heqA
    split at hev
    · split at hev
      · simp at hev
        exact Or.inl hev
      next item_A heqg =>
        simp only [List.mem_cons] at hev
        rcases hev with rfl | hev
        · exact Or.inl rfl
        · rcases cnuB_events ev hev with ⟨it, rfl⟩ | rfl
          · exact Or.inr (Or.inl ⟨it, rfl⟩)
          · exact Or.inr (Or.inr ⟨id_B, hmem, Or.inl rfl⟩)
    · split at hev
      · simp at hev
        exact Or.inr (Or.inr ⟨id_B, hmem, Or.inr hev⟩)
      · simp at hev

/-- Loop version of `ncA_step_events`. -/
theorem ncA_loop_events {env : Env} {chA : SideChanges} :
    ∀ {l : List ID} {st : SyncState},
      ∀ ev ∈ (non_conflict_A_loop env chA l st).1,
        (∃ i, i ∈ l ∧ ev = Ev.getA i) ∨ (∃ it, ev = Ev.convB it) ∨
        (∃ x i, i ∈ l ∧ (i, x) ∈ st.a2b ∧ (ev = Ev.updB x ∨ ev = Ev.delB x))
  | [], st, ev, hev => by simp [non_conflict_A_loop] at hev
  | a :: rest, st, ev, hev => by
    simp only [non_conflict_A_loop] at hev
    split at hev
    next e heq =>
      rcases ncA_step_events ev hev with h | h | ⟨x, hx, hor⟩
      · exact Or.inl ⟨a, List.mem_cons_self a rest, h⟩
      · exact Or.inr (Or.inl h)
      · exact Or.inr (Or.inr ⟨x, a, List.mem_cons_self a rest, hx, hor⟩)
    next st1 heq =>
      simp only [List.mem_append] at hev
      rcases hev with hev | hev
      · rcases ncA_step_events ev hev with h | h | ⟨x, hx, hor⟩
        · exact Or.inl ⟨a, List.mem_cons_self a rest, h⟩
        · exact Or.inr (Or.inl h)
        · exact Or.inr (Or.inr ⟨x, a, List.mem_cons_self a rest, hx, hor⟩)
      · rcases ncA_loop_events ev hev with ⟨i, hi, h⟩ | h | ⟨x, i, hi, hx, hor⟩
        · exact Or.inl ⟨i, List.mem_cons_of_mem a hi, h⟩
        · exact Or.inr (Or.inl h)
        · exact Or.inr (Or.inr ⟨x, i, List.mem_cons_of_mem a hi,
            (sub_non_conflict_A_step heq).subset hx, hor⟩)

/-- A getter that does not raise a non-`KeyError` exception wraps to the
item view of its outcome. -/
theorem wrapped_getter_ok {g : ID → RawGet} {i : ID}
    (h : g i ≠ RawGet.otherExc) :
    item_getter_handle_exc g i = .ok (rawToOpt (g i)) := by
  cases hg : g i with
  | otherExc => exact absurd hg h
  | ok it => simp [item_getter_handle_exc, rawToOpt, hg]
  | keyErr => simp [item_getter_handle_exc, rawToOpt, hg]

/-- `_convert_n_update_to_B` on a present item always returns normally. -/
theorem cnuB_some_ok (env : Env) (i : ID) (it : Item) (st : SyncState) :
    ∃ st', (convert_n_update_to_B env i (some it) st).2 = .ok st' := by
  simp only [convert_n_update_to_B]
  cases hc : env.converter_to_B it with
  | error e => exact ⟨st, rfl⟩
  | ok o =>
    cases o with
    | none => exact ⟨st, rfl⟩
    | some ci => exact ⟨{ st with statsB := st.statsB.update }, rfl⟩

/-- `_convert_n_update_to_A` on a present item always returns normally. -/
theorem cnuA_some_ok (env : Env) (i : ID) (it : Item) (st : SyncState) :
    ∃ st', (convert_n_update_to_A env i (some it) st).2 = .ok st' := by
  simp only [convert_n_update_to_A]
  cases hc : env.converter_to_A it with
  | error e => exact ⟨st, rfl⟩
  | ok o =>
    cases o with
    | none => exact ⟨st, rfl⟩
    | some ci => exact ⟨{ st with statsA := st.statsA.update }, rfl⟩

/-- Under non-raising getters and a never-`Mix` strategy, one conflict step
returns normally; its trace is the B getter, the A getter and exactly one
resolution call on the pair, followed by resolution-free events. -/
theorem conflict_step_shape_core {env : Env} {rs : RS}
    {chA chB : SideChanges} {b a : ID} {st : SyncState} {IA IB : Option Item}
    (hlook : lookupB st.a2b b = some a)
    (hwB : item_getter_handle_exc env.item_getter_B b = .ok IB)
    (hwA : item_getter_handle_exc env.item_getter_A a = .ok IA)
    (hnm : (rs IA IB).result_id ≠ RID.Mix) :
    ∃ (st' : SyncState) (extra : List Ev),
      conflict_step env rs chA chB b st =
        (Ev.getB b :: Ev.getA a :: Ev.res a b :: extra, .ok st') ∧
      ∀ a' b', Ev.res a' b' ∉ extra := by
  cases hres : (rs IA IB).result_id with
  | Mix => exact absurd hres hnm
  | A =>
    cases IA with
    | some iA =>
      obtain ⟨st', hok⟩ := cnuB_some_ok env b iA st
      refine ⟨st', (convert_n_update_to_B env b (some iA) st).1, ?_, ?_⟩
      · simp only [conflict_step, hlook, hwB, hwA, hres]
        simp [hok]
      · intro a' b' hin
        rcases cnuB_events _ hin with ⟨it, h⟩ | h <;> exact Ev.noConfusion h
    | none =>
      by_cases hdel : b ∈ chB.deleted
      · refine ⟨{ st with a2b := eraseB st.a2b b }, [], ?_, by simp⟩
        simp only [conflict_step, hlook, hwB, hwA, hres]
        simp [popB, hlook, hdel]
      · refine ⟨{ st with a2b := delete_n_pop_B env b st.a2b, statsB := st.statsB.delete },
          [Ev.delB b], ?_, by simp⟩
        simp only [conflict_step, hlook, hwB, hwA, hres]
        simp [hdel]
  | B =>
    cases IB with
    | some iB =>
      obtain ⟨st', hok⟩ := cnuA_some_ok env a iB st
      refine ⟨st', (convert_n_update_to_A env a (some iB) st).1, ?_, ?_⟩
      · simp only [conflict_step, hlook, hwB, hwA, hres]
        simp [hok]
      · intro a' b' hin
        rcases cnuA_events _ hin with ⟨it, h⟩ | h <;> exact Ev.noConfusion h
    | none =>
      by_cases hdel : a ∈ chA.deleted
      · have hlkA : (lookupA st.a2b a).isSome := by
          cases hA : lookupA st.a2b a with
          | some x => rfl
          | none =>
            rw [lookupA_eq_none] at hA
            exact absurd rfl (hA (a, b) (lookupB_mem hlook))
        refine ⟨{ st with a2b := eraseA st.a2b a }, [], ?_, by simp⟩
        simp only [conflict_step, hlook, hwB, hwA, hres]
        simp [popA, hlkA, hdel]
      · refine ⟨{ st with a2b := delete_n_pop_A env a st.a2b, statsA := st.statsA.delete },
          [Ev.delA a], ?_, by simp⟩
        simp only [conflict_step, hlook, hwB, hwA, hres]
        simp [hdel]

/-- `conflict_step_shape_core` with the getter hypotheses in raw form. -/
theorem conflict_step_shape {env : Env} {rs : RS} {chA chB : SideChanges}
    {b a : ID} {st : SyncState}
    (hlook : lookupB st.a2b b = some a)
    (hgA : ∀ i, env.item_getter_A i ≠ RawGet.otherExc)
    (hgB : ∀ i, env.item_getter_B i ≠ RawGet.otherExc)
    (hmix : ∀ x y, (rs x y).result_id ≠ RID.Mix) :
    ∃ (st' : SyncState) (extra : List Ev),
      conflict_step env rs chA chB b st =
        (Ev.getB b :: Ev.getA a :: Ev.res a b :: extra, .ok st') ∧
      ∀ a' b', Ev.res a' b' ∉ extra :=
  conflict_step_shape_core hlook (wrapped_getter_ok (hgB b))
    (wrapped_getter_ok (hgA a)) (hmix _ _)

/-- A normally-returning conflict step keeps every map pair other than the
conflicting one. -/
theorem pres_conflict_step {env : Env} {rs : RS} {chA chB : SideChanges}
    {b a : ID} {st st' : SyncState}
    (hwf : bimapWF st.a2b) (hlook : lookupB st.a2b b = some a)
    (h : (conflict_step env rs chA chB b st).2 = .ok st') :
    ∀ p ∈ st.a2b, p ≠ (a, b) → p ∈ st'.a2b := by
  have hpair : (a, b) ∈ st.a2b := lookupB_mem hlook
  simp only [conflict_step] at h
  split at h
  · exact Except.noConfusion h
  next conflict_in_A heqB =>
    rw [hlook] at heqB
    injection heqB with heqB
    subst heqB
    split at h
    · exact Except.noConfusion h
    next item_B heqgB =>
      split at h
      · exact Except.noConfusion h
      next item_A heqgA =>
        split at h
        · exact Except.noConfusion h
        · split at h
          · split at h
            · split at h
              · exact Except.noConfusion h
              next m2 hpop =>
                injection h with h
                subst h
                simp only [popB] at hpop
                split at hpop
                · injection hpop with hpop
                  subst hpop
                  exact fun p hp hne => mem_eraseB_of_ne hwf hpair hp hne
                · exact Except.noConfusion hpop
            · injection h with h
              subst h
              intro p hp hne
              simp only [delete_n_pop_B]
              split
              · exact hp
              · exact mem_eraseB_of_ne hwf hpair hp hne
          · rename_i iA hiA
            replace h : (convert_n_update_to_B env b (some iA) st).2 = .ok st' := h
            rw [a2b_convert_n_update_to_B h]
            exact fun p hp _ => hp
        · split at h
          · split at h
            · split at h
              · exact Except.noConfusion h
              next m2 hpop =>
                injection h with h
                subst h
                simp only [popA] at hpop
                split at hpop
                · injection hpop with hpop
                  subst hpop
                  exact fun p hp hne => mem_eraseA_of_ne hwf hpair hp hne
                · exact Except.noConfusion hpop
            · injection h with h
              subst h
              intro p hp hne
              simp only [delete_n_pop_A]
              split
              · exact hp
              · exact mem_eraseA_of_ne hwf hpair hp hne
          · rename_i iB hiB
            replace h : (convert_n_update_to_A env a (some iB) st).2 = .ok st' := h
            rw [a2b_convert_n_update_to_A h]
            exact fun p hp _ => hp

/-- Full specification of the conflict loop under a bijective map with all
conflicts mapped, non-raising getters and a never-`Mix` strategy: it
returns normally, only removes pairs of processed conflicts, performs
exactly one resolution call per conflicting pair, and performs resolution
calls only for listed conflicts. -/
theorem conflict_loop_spec {env : Env} {rs : RS} {chA chB : SideChanges}
    (hgA : ∀ i, env.item_getter_A i ≠ RawGet.otherExc)
    (hgB : ∀ i, env.item_getter_B i ≠ RawGet.otherExc)
    (hmix : ∀ x y, (rs x y).result_id ≠ RID.Mix) :
    ∀ {l : List ID} {st : SyncState},
      bimapWF st.a2b → l.Nodup →
      (∀ b ∈ l, (lookupB st.a2b b).isSome) →
      ∃ st2 : SyncState,
        (conflict_loop env rs chA chB l st).2 = .ok st2 ∧
        st2.a2b.Sublist st.a2b ∧
        (∀ p ∈ st.a2b, p.2 ∉ l → p ∈ st2.a2b) ∧
        (∀ a b, b ∈ l → lookupB st.a2b b = some a →
          (conflict_loop env rs chA chB l st).1.count (Ev.res a b) = 1) ∧
        (∀ a b, Ev.res a b ∈ (conflict_loop env rs chA chB l st).1 → b ∈ l)
  | [], st, hwf, hnd, hsome =>
    ⟨st, rfl, List.Sublist.refl _, fun p hp _ => hp,
      fun a b hb _ => absurd hb (List.not_mem_nil b),
      fun a b hmem => by simp [conflict_loop] at hmem⟩
  | b0 :: rest, st, hwf, hnd, hsome => by
    obtain ⟨a0, hlook0⟩ :=
      Option.isSome_iff_exists.1 (hsome b0 (List.mem_cons_self b0 rest))
    obtain ⟨st1, extra, hstep, hnores⟩ :=
      conflict_step_shape hlook0 hgA hgB hmix
    have hstep2 : (conflict_step env rs chA chB b0 st).2 = .ok st1 := by
      rw [hstep]
    have hsub1 := sub_conflict_step hstep2
    have hwf1 := bimapWF_of_sublist hsub1 hwf
    have hpres1 := pres_conflict_step hwf hlook0 hstep2
    have hb0nr : b0 ∉ rest := (List.nodup_cons.1 hnd).1
    have hsome1 : ∀ b ∈ rest, (lookupB st1.a2b b).isSome := by
      intro b hb
      obtain ⟨ab, hab⟩ :=
        Option.isSome_iff_exists.1 (hsome b (List.mem_cons_of_mem b0 hb))
      have hpair : (ab, b) ∈ st.a2b := lookupB_mem hab
      have hne : (ab, b) ≠ (a0, b0) := by
        intro hcc
        injection hcc with h1 h2
        exact hb0nr (h2 ▸ hb)
      rw [mem_lookupB hwf1.2 (hpres1 _ hpair hne)]
      rfl
    obtain ⟨st2, hok2, hsub2, hpres2, hcount2, hresmem2⟩ :=
      conflict_loop_spec hgA hgB hmix hwf1 (List.nodup_cons.1 hnd).2 hsome1
    refine ⟨st2, ?_, hsub2.trans hsub1, ?_, ?_, ?_⟩
    · simp only [conflict_loop, hstep]
      exact hok2
    · intro p hp hnotin
      simp only [List.mem_cons, not_or] at hnotin
      have hne : p ≠ (a0, b0) := by
        intro hcc
        exact hnotin.1 (by rw [hcc])
      exact hpres2 _ (hpres1 _ hp hne) hnotin.2
    · intro a b hb hlookb
      simp only [conflict_loop, hstep, List.count_append, List.count_cons]
      rcases List.mem_cons.1 hb with rfl | hbr
      · rw [hlook0] at hlookb
        injection hlookb with h'
        subst h'
        rw [List.count_eq_zero.2 (hnores _ _),
          List.count_eq_zero.2 (fun hmem => hb0nr (hresmem2 _ _ hmem))]
        simp
      · have hbne : b ≠ b0 := by
          intro hcc
          exact hb0nr (hcc ▸ hbr)
        have hpair : (a, b) ∈ st.a2b := lookupB_mem hlookb
        have hne : (a, b) ≠ (a0, b0) := by
          intro hcc
          injection hcc with h1 h2
          exact hbne h2
        have hlookb1 : lookupB st1.a2b b = some a :=
          mem_lookupB hwf1.2 (hpres1 _ hpair hne)
        have hex : extra.count (Ev.res a b) = 0 :=
          List.count_eq_zero.2 (hnores a b)
        have hhd : ¬ (Ev.res a b = Ev.res a0 b0) := by
          intro hcc
          injection hcc with h1 h2
          exact hbne h2
        have htl := hcount2 a b hbr hlookb1
        simp [hex, htl, hhd]
        intro h1 h2
        exact hbne h2.symm
    · intro a b hmem
      simp only [conflict_loop, hstep, List.mem_append, List.mem_cons,
        or_assoc] at hmem
      rcases hmem with h | h | h | h | h
      · exact Ev.noConfusion h
      · exact Ev.noConfusion h
      · injection h with h1 h2
        exact List.mem_cons.2 (Or.inl h2)
      · exact absurd h (hnores a b)
      · exact List.mem_cons_of_mem b0 (hresmem2 _ _ h)

/-- C1: During phases 2–4 of `_sync` (run from the engine state `st` at
conflict-classification time): (1) the computed conflict set in B's
identifier space — `conflicts_in_B = touched_from_B ∩ keys of
touched_from_A_in_B_map` — holds exactly the B identifiers touched on B
whose pair is in the image of side A's touched set under the
correspondence map; (2) the conflict loop returns normally and its trace
holds *exactly one* resolution-strategy invocation for every conflicting
pair; and (3) the two non-conflict loops never apply an update or delete
to either member of a conflicting pair, and never invoke the resolution
strategy.  Hypotheses: the map is a bijection, every touched identifier
on either side has a correspondent (the `mapKeys` equations are exactly
`_sync`'s dict comprehensions succeeding), `touched_from_B` is
duplicate-free, the getters never raise a non-`KeyError` exception, and
the strategy never returns `Mix`. -/
theorem c1_conflict_classification (env : Env) (rs : RS)
    (chA chB : SideChanges) (st : SyncState) (tBinA tAinB : List ID)
    (hwf : bimapWF st.a2b)
    (h2 : mapKeysBtoA st.a2b (touched_from_B chB) = .ok tBinA)
    (h3 : mapKeysAtoB st.a2b (touched_from_A chA) = .ok tAinB)
    (hndB : (touched_from_B chB).Nodup)
    (hgA : ∀ i, env.item_getter_A i ≠ RawGet.otherExc)
    (hgB : ∀ i, env.item_getter_B i ≠ RawGet.otherExc)
    (hmix : ∀ x y, (rs x y).result_id ≠ RID.Mix) :
    (∀ b, b ∈ (touched_from_B chB).filter (fun b => decide (b ∈ tAinB)) ↔
      (b ∈ touched_from_B chB ∧
        ∃ a ∈ touched_from_A chA, lookupA st.a2b a = some b)) ∧
    ∃ st2 : SyncState,
      (conflict_loop env rs chA chB
        ((touched_from_B chB).filter (fun b => decide (b ∈ tAinB))) st).2 =
          .ok st2 ∧
      (∀ a b,
        b ∈ (touched_from_B chB).filter (fun b => decide (b ∈ tAinB)) →
        lookupB st.a2b b = some a →
        (conflict_loop env rs chA chB
          ((touched_from_B chB).filter (fun b => decide (b ∈ tAinB))) st).1.count
            (Ev.res a b) = 1) ∧
      (∀ a b,
        b ∈ (touched_from_B chB).filter (fun b => decide (b ∈ tAinB)) →
        lookupB st.a2b b = some a →
        (∀ ev ∈ (non_conflict_B_loop env chB
            ((touched_from_B chB).filter (fun x => decide (x ∉ tAinB))) st2).1,
          ev ≠ Ev.updA a ∧ ev ≠ Ev.delA a ∧ ∀ a' b', ev ≠ Ev.res a' b') ∧
        (∀ st3,
          (non_conflict_B_loop env chB
            ((touched_from_B chB).filter (fun x => decide (x ∉ tAinB))) st2).2 =
            .ok st3 →
          ∀ ev ∈ (non_conflict_A_loop env chA
              ((touched_from_A chA).filter (fun x => decide (x ∉ tBinA))) st3).1,
            ev ≠ Ev.updB b ∧ ev ≠ Ev.delB b ∧ ∀ a' b', ev ≠ Ev.res a' b')) := by
  have hmemAB := mapKeysAtoB_ok_mem h3
  have hmemBA := mapKeysBtoA_ok_mem h2
  constructor
  · intro b
    simp only [List.mem_filter, decide_eq_true_eq, hmemAB]
  · have hndc : ((touched_from_B chB).filter
        (fun b => decide (b ∈ tAinB))).Nodup := hndB.filter _
    have hsomec : ∀ b ∈ (touched_from_B chB).filter
        (fun b => decide (b ∈ tAinB)), (lookupB st.a2b b).isSome := by
      intro b hb
      exact mapKeysBtoA_isSome h2 b (List.mem_filter.1 hb).1
    obtain ⟨st2, hok, hsub, hpres, hcount, hresmem⟩ :=
      conflict_loop_spec hgA hgB hmix hwf hndc hsomec
    refine ⟨st2, hok, fun a b hb hl => hcount a b hb hl, ?_⟩
    intro a b hbconf hlookb
    have hbB : b ∈ touched_from_B chB := (List.mem_filter.1 hbconf).1
    have hbin : b ∈ tAinB :=
      of_decide_eq_true ((List.mem_filter.1 hbconf).2)
    have hpairab : (a, b) ∈ st.a2b := lookupB_mem hlookb
    have hain : a ∈ tBinA := (hmemBA a).2 ⟨b, hbB, hlookb⟩
    constructor
    · intro ev hev
      rcases ncB_loop_events ev hev with ⟨i, hi, rfl⟩ | ⟨it, rfl⟩ |
        ⟨x, i, hi, hxmem, hor⟩
      · exact ⟨fun hcc => Ev.noConfusion hcc, fun hcc => Ev.noConfusion hcc,
          fun a' b' hcc => Ev.noConfusion hcc⟩
      · exact ⟨fun hcc => Ev.noConfusion hcc, fun hcc => Ev.noConfusion hcc,
          fun a' b' hcc => Ev.noConfusion hcc⟩
      · have hxa : x ≠ a := by
          intro hcc
          subst hcc
          have hximem : (x, i) ∈ st.a2b := hsub.subset hxmem
          have hib : i = b := fst_inj hwf.1 hximem hpairab
          subst hib
          have : ¬ (i ∈ tAinB) :=
            of_decide_eq_true ((List.mem_filter.1 hi).2)
          exact this hbin
        rcases hor with rfl | rfl
        · exact ⟨fun hcc => hxa (by injection hcc),
            fun hcc => Ev.noConfusion hcc,
            fun a' b' hcc => Ev.noConfusion hcc⟩
        · exact ⟨fun hcc => Ev.noConfusion hcc,
            fun hcc => hxa (by injection hcc),
            fun a' b' hcc => Ev.noConfusion hcc⟩
    · intro st3 hok3 ev hev
      have hsub3 := sub_non_conflict_B_loop hok3
      rcases ncA_loop_events ev hev with ⟨i, hi, rfl⟩ | ⟨it, rfl⟩ |
        ⟨x, i, hi, hxmem, hor⟩
      · exact ⟨fun hcc => Ev.noConfusion hcc, fun hcc => Ev.noConfusion hcc,
          fun a' b' hcc => Ev.noConfusion hcc⟩
      · exact ⟨fun hcc => Ev.noConfusion hcc, fun hcc => Ev.noConfusion hcc,
          fun a' b' hcc => Ev.noConfusion hcc⟩
      · have hxb : x ≠ b := by
          intro hcc
          subst hcc
          have hximem : (i, x) ∈ st.a2b :=
            hsub.subset (hsub3.subset hxmem)
          have hia : i = a := snd_inj hwf.2 hximem hpairab
          subst hia
          have : ¬ (i ∈ tBinA) :=
            of_decide_eq_true ((List.mem_filter.1 hi).2)
          exact this hain
        rcases hor with rfl | rfl
        · exact ⟨fun hcc => hxb (by injection hcc),
            fun hcc => Ev.noConfusion hcc,
            fun a' b' hcc => Ev.noConfusion hcc⟩
        · exact ⟨fun hcc => Ev.noConfusion hcc,
            fun hcc => hxb (by injection hcc),
            fun a' b' hcc => Ev.noConfusion hcc⟩

/-- Witness for C1: two mapped pairs, `a1 ↔ b1` modified on both sides
(one genuine conflict), `b2` modified only on B.  The classification
formula holds at `b1` and the conflict loop performs exactly one
resolution call for the pair. -/
theorem c1_witness :
    (("b1" : ID) ∈ (touched_from_B ⟨[], ["b1", "b2"], []⟩).filter
        (fun b => decide (b ∈ (["b1"] : List ID))) ↔
      (("b1" : ID) ∈ touched_from_B ⟨[], ["b1", "b2"], []⟩ ∧
        ∃ a ∈ touched_from_A ⟨[], ["a1"], []⟩,
          lookupA [(("a1" : ID), ("b1" : ID)), ("a2", "b2")] a = some "b1")) ∧
    (conflict_loop wEnvDelOk AlwaysFirstRS.resolve ⟨[], ["a1"], []⟩
        ⟨[], ["b1", "b2"], []⟩
        ((touched_from_B ⟨[], ["b1", "b2"], []⟩).filter
          (fun b => decide (b ∈ (["b1"] : List ID))))
        ⟨[("a1", "b1"), ("a2", "b2")], .init, .init⟩).1.count
      (Ev.res "a1" "b1") = 1 := by
  have h := c1_conflict_classification wEnvDelOk AlwaysFirstRS.resolve
    ⟨[], ["a1"], []⟩ ⟨[], ["b1", "b2"], []⟩
    ⟨[("a1", "b1"), ("a2", "b2")], .init, .init⟩
    ["a1", "a2"] ["b1"]
    (by decide) (by decide) (by decide) (by decide)
    (fun i => by simp [wEnvDelOk]) (fun i => by simp [wEnvDelOk])
    (fun x y => by simp [AlwaysFirstRS.resolve])
  refine ⟨h.1 "b1", ?_⟩
  obtain ⟨st2, hok, hcount, hnc⟩ := h.2
  exact hcount "a1" "b1" (by decide) (by decide)

end ItemSync
